import Mathlib

/-!
Verification of the billing-assists collection pipeline
(`src/shared/akamai_client.py` and `src/tasks/akamai_billing/main.py`)
against its natural-language specification.

The Python source is shallowly embedded: pure fragments become Lean
functions, the stateful `RateLimiter` becomes an explicit step function on
a state record, the thread pool of `collect_all` becomes a fold over the
completion order of the workers (the `as_completed` order), and calls to
the remote Akamai API (out of scope for the spec, and partly absent from
`src/shared/akamai_client.py`) are an oracle record supplying the
`(data, error)` pair each call would return.
-/

namespace Spec2Proof

/-! ### RateLimiter (src/shared/akamai_client.py, lines 16-39) -/

/-- State of a `RateLimiter` object.  `request_times` mirrors
`self.request_times`; `history` is a ghost field recording every timestamp
ever appended to `request_times` (i.e. every admitted call), used only to
state properties.  Timestamps are naturals (the embedding of `time.time()`
values along one execution). -/
structure RLState where
  request_times : List Nat
  history : List Nat
deriving Repr, DecidableEq

/-- `RateLimiter.__init__`: `self.request_times = []` (and empty ghost history). -/
def rlInit : RLState := ⟨[], []⟩

/-- One pass through the body of the `while True:` loop of
`RateLimiter.acquire`, executed under `self._lock` with `now = time.time()`:
prune entries with `now - t >= 60`, then if fewer than `max_per_minute`
remain, append `now` and return (`true` = the call returned on this pass);
otherwise leave the state pruned and go sleep (`false` = retry later).
`max_per_minute` is an `Int` because the Python constructor accepts any int. -/
def acquireStep (max_per_minute : Int) (now : Nat) (s : RLState) : RLState × Bool :=
  let pruned := s.request_times.filter (fun t => decide (now - t < 60))
  if (pruned.length : Int) < max_per_minute then
    (⟨pruned ++ [now], s.history ++ [now]⟩, true)
  else
    (⟨pruned, s.history⟩, false)

/-- A serialized sequence of lock-protected loop passes (the lock serializes
all concurrent callers' passes; `nows` are the observed clock values, in
lock-acquisition order). -/
def runAcquires (max_per_minute : Int) (nows : List Nat) (s : RLState) : RLState :=
  nows.foldl (fun st now => (acquireStep max_per_minute now st).1) s

/-- Number of timestamps of `ts` falling in the 60-second sliding window
ending at `e`, i.e. in the half-open interval `(e-60, e]`. -/
def windowCount (ts : List Nat) (e : Nat) : Nat :=
  (ts.filter (fun t => decide (t ≤ e) && decide (e - t < 60))).length

/-- The clock values observed by successive lock holders never decrease. -/
def nondecreasing : List Nat → Bool
  | [] => true
  | [_] => true
  | a :: b :: t => decide (a ≤ b) && nondecreasing (b :: t)

/-- Inductive invariant for the rate limiter: after the last lock holder saw
clock value `prev`, (i) every admitted timestamp is `≤ prev`, (ii)
`request_times` is exactly the admitted history restricted to the last 60
seconds, and (iii) every 60-second window of the admitted history holds at
most `max max_per_minute 0` timestamps. -/
def RLInv (max_per_minute : Int) (prev : Nat) (s : RLState) : Prop :=
  (∀ t ∈ s.history, t ≤ prev) ∧
  s.request_times = s.history.filter (fun t => decide (prev - t < 60)) ∧
  ∀ e, (windowCount s.history e : Int) ≤ max max_per_minute 0

/-- Last element of `nows`, defaulting to `d` when empty. -/
def lastD (d : Nat) : List Nat → Nat
  | [] => d
  | a :: t => lastD a t

/-! ### Python dict as association list (insertion-ordered, overwrite keeps position) -/

/-- `m[k] = v` on a Python dict: overwrite in place if the key exists,
otherwise append at the end (Python dicts preserve insertion order). -/
def alUpdate {α : Type} (m : List (String × α)) (k : String) (v : α) : List (String × α) :=
  if m.any (fun p => p.1 == k) then
    m.map (fun p => if p.1 == k then (k, v) else p)
  else m ++ [(k, v)]

/-- `m.update(adds)` on Python dicts: set every key of `adds` in order. -/
def alUpdateAll {α : Type} (m adds : List (String × α)) : List (String × α) :=
  adds.foldl (fun acc p => alUpdate acc p.1 p.2) m

/-- `m.get(k)` on a Python dict (`None` when absent). -/
def alLookup {α : Type} (m : List (String × α)) (k : String) : Option α :=
  (m.find? (fun p => p.1 == k)).map (fun p => p.2)

/-! ### Data model of the Akamai payloads used by the pipeline -/

/-- One element of a product's `reportingGroups` list.  Fields are optional
because the Python code reads them with `dict.get`. -/
structure RepGroup where
  reportingGroupId : Option String
  reportingGroupName : Option String
deriving Repr, DecidableEq

/-- One product dict as consumed by `process_contract` / `check_data_status`. -/
structure ProductInfo where
  productId : Option String
  productName : Option String
  reportingGroups : List RepGroup
deriving Repr, DecidableEq

/-- One element of `usagePeriods` in a products response. -/
structure UsagePeriod where
  usageProducts : List ProductInfo
deriving Repr, DecidableEq

/-- A truthy products response body.  `products`/`usagePeriods` are `some`
exactly when the corresponding key is present in the JSON object. -/
structure ProductsData where
  products : Option (List ProductInfo)
  usagePeriods : Option (List UsagePeriod)
deriving Repr, DecidableEq

/-- A truthy usage response body: its `dataStatus` tag (if the key is
present) and the rest of the JSON document, kept opaque because the
collection code never inspects it. -/
structure UsageData where
  dataStatus : Option String
  payload : String
deriving Repr, DecidableEq

/-- `extract_products` (src/shared/akamai_client.py, lines 110-121): take the
`products` key if present, else concatenate `usageProducts` over
`usagePeriods`, else `[]`. -/
def extract_products (products_data : ProductsData) : List ProductInfo :=
  match products_data.products with
  | some ps => ps
  | none =>
    match products_data.usagePeriods with
    | some periods => periods.foldl (fun acc p => acc ++ p.usageProducts) []
    | none => []

/-- Python truthiness of an optional string: `None` and `""` are falsy. -/
def truthy? (s : Option String) : Option String :=
  match s with
  | some s => if s = "" then none else some s
  | none => none

/-- Python `f"{x}"` on an optional string (`None` prints as `"None"`). -/
def pyStr (s : Option String) : String :=
  match s with
  | some s => s
  | none => "None"

/-- Modelled from the spec: the remote metering API client is an out-of-scope
opaque capability (spec §1, §6) whose typed query operations each return a
`(payload, error)` pair; the concrete client in
`src/shared/akamai_client.py` does not define `get_product_usage` /
`get_reporting_group_usage` (only `get_product_usage_monthly`), so the three
operations the pipeline invokes are modelled as oracle functions.  A `none`
payload stands for a `None` or falsy (empty) response body, matching every
truthiness test performed on it by the callers. -/
structure Api where
  get_products : String → String → String → String → Option ProductsData × Option String
  get_product_usage : String → String → Option String → String → Option UsageData × Option String
  get_reporting_group_usage : String → String → String → String → Option UsageData × Option String

/-- One contract dict as produced by `fetch_akamai_contracts`
(src/tasks/akamai_billing/main.py, lines 46-76). -/
structure Contract where
  contract_id : String
  account_id : String
  company_name : String
  seq : Option Int
deriving Repr, DecidableEq

/-! ### Readiness probe: check_data_status (src/tasks/akamai_billing/main.py, lines 81-142) -/

/-- The sample index list `[i * step for i in range(sample_count)]` with
`sample_count = min(5, n)` and `step = max(1, n // sample_count)`. -/
def sampleIdxList (n : Nat) : List Nat :=
  (List.range (min 5 n)).map (fun i => i * max 1 (n / min 5 n))

/-- Index a list at each position, failing (like Python's `IndexError`) if
any index is out of bounds. -/
def getIndexed {α : Type} (l : List α) : List Nat → Option (List α)
  | [] => some []
  | i :: is =>
    match l.get? i with
    | none => none
    | some x =>
      match getIndexed l is with
      | none => none
      | some xs => some (x :: xs)

/-- Sample selection of `check_data_status` (lines 94-98).  When the contract
list is empty, `sample_count = min(5, 0) = 0` and the Python expression
`n // sample_count` raises `ZeroDivisionError`: modelled as `none`. -/
def probeSamples (contracts : List Contract) : Option (List Contract) :=
  if contracts.length = 0 then none
  else getIndexed contracts (sampleIdxList contracts.length)

/-- Bump the `statuses` histogram: `statuses[status] = statuses.get(status, 0) + 1`. -/
def bumpStatus (m : List (String × Nat)) (k : String) : List (String × Nat) :=
  alUpdate m k ((alLookup m k).getD 0 + 1)

/-- Body of the per-sample loop of `check_data_status` (lines 103-133),
accumulating the `(statuses, details)` pair.  The rate-limiter interaction
has no effect on the computed verdict and report (acquire always returns)
and is omitted from this pure fragment. -/
def probeSample (api : Api) (billing_month next_month : String)
    (st : List (String × Nat) × List String) (c : Contract) :
    List (String × Nat) × List String :=
  let cid := c.contract_id
  let aid := c.account_id
  let name := c.company_name
  let r := api.get_products cid aid billing_month next_month
  let products_data := r.1
  let err := r.2
  match truthy? err, products_data with
  | some e, _ =>
    (st.1, st.2 ++ ["  " ++ cid ++ " (" ++ name ++ "): 조회 실패 - " ++ pyStr (some e)])
  | none, none =>
    (st.1, st.2 ++ ["  " ++ cid ++ " (" ++ name ++ "): 조회 실패 - " ++ pyStr err])
  | none, some pd =>
    match extract_products pd with
    | [] => (st.1, st.2 ++ ["  " ++ cid ++ " (" ++ name ++ "): Product 없음"])
    | first_product :: _ =>
      let pid := first_product.productId
      let u := api.get_product_usage cid aid pid billing_month
      match truthy? u.2, u.1 with
      | some e, _ =>
        (st.1, st.2 ++ ["  " ++ cid ++ " (" ++ name ++ "): Usage 조회 실패 - " ++ pyStr (some e)])
      | none, none =>
        (st.1, st.2 ++ ["  " ++ cid ++ " (" ++ name ++ "): Usage 조회 실패 - " ++ pyStr u.2])
      | none, some usage_data =>
        let status := usage_data.dataStatus.getD "UNKNOWN"
        (bumpStatus st.1 status,
          st.2 ++ ["  " ++ cid ++ " (" ++ name ++ "): " ++ status])

/-- Code-point lexicographic order on strings (what Python's `sorted` uses
on `str`), as a Boolean on the underlying character lists. -/
def charListLt : List Char → List Char → Bool
  | [], [] => false
  | [], _ :: _ => true
  | _ :: _, [] => false
  | c :: cs, d :: ds =>
    if c.toNat < d.toNat then true
    else if d.toNat < c.toNat then false
    else charListLt cs ds

/-- Insertion sort of the status histogram by key, modelling
`sorted(statuses.items())` (keys are distinct, so the key decides). -/
def insertByKey (x : String × Nat) : List (String × Nat) → List (String × Nat)
  | [] => [x]
  | y :: ys => if charListLt x.1.data y.1.data then x :: y :: ys else y :: insertByKey x ys

def sortByKey (l : List (String × Nat)) : List (String × Nat) :=
  l.foldr insertByKey []

/-- The readiness verdict of `check_data_status` (lines 135-136):
`collecting == 0 and len(statuses) > 0`. -/
def probeVerdict (statuses : List (String × Nat)) : Bool :=
  decide ((alLookup statuses "COLLECTING_DATA").getD 0 = 0) && decide (0 < statuses.length)

/-- `check_data_status` (lines 81-142): sample, probe each sample, tally the
status histogram, derive the verdict and build the report.  `none` models the
`ZeroDivisionError` raised on an empty contract list. -/
def check_data_status (api : Api) (contracts : List Contract)
    (billing_month next_month : String) : Option (Bool × String) :=
  match probeSamples contracts with
  | none => none
  | some samples =>
    let st := samples.foldl (probeSample api billing_month next_month) ([], [])
    let statuses := st.1
    let details := st.2
    let is_ready := probeVerdict statuses
    let status_lines := String.intercalate "\n"
      ((sortByKey statuses).map (fun p => "  " ++ p.1 ++ ": " ++ toString p.2 ++ "건"))
    let detail_lines := String.intercalate "\n" details
    let report := "샘플 " ++ toString (min 5 contracts.length) ++ "개 상태:\n" ++
      status_lines ++ "\n\n" ++ detail_lines
    some (is_ready, report)

/-! ### Per-contract worker: process_contract (src/tasks/akamai_billing/main.py, lines 147-233) -/

/-- One value of the `result["product_usage"]` map built by `process_contract`. -/
structure PURecord where
  contractId : String
  accountId : String
  companyName : String
  productId : String
  productName : String
  data : UsageData
deriving Repr, DecidableEq

/-- One value of the `result["reporting_group_usage"]` map. -/
structure RGRecord where
  contractId : String
  accountId : String
  companyName : String
  productId : String
  productName : String
  reportingGroupId : String
  reportingGroupName : String
  data : UsageData
deriving Repr, DecidableEq

/-- The `result` dict returned by `process_contract`.  `products = none`
models the initial falsy `{}`; the `error` key is only present when set. -/
structure ContractResult where
  contract_id : String
  account_id : String
  company_name : String
  success : Bool
  products : Option ProductsData
  product_usage : List (String × PURecord)
  reporting_group_usage : List (String × RGRecord)
  error : Option String
deriving Repr, DecidableEq

def initResult (c : Contract) : ContractResult :=
  ⟨c.contract_id, c.account_id, c.company_name, false, none, [], [], none⟩

/-- The composite key `f"{a}_{b}"`. -/
def compKey (a b : String) : String := a ++ "_" ++ b

/-- Body of the inner `for rg in product.get("reportingGroups", [])` loop
(lines 210-230) for a product with truthy id `pid` and name `pname`. -/
def rgStep (api : Api) (cid aid cname month pid pname : String)
    (acc : List (String × RGRecord)) (rg : RepGroup) : List (String × RGRecord) :=
  match truthy? rg.reportingGroupId with
  | none => acc
  | some rg_id =>
    let rg_name := rg.reportingGroupName.getD "Unknown"
    match (api.get_reporting_group_usage aid rg_id pid month).1 with
    | some rg_data =>
      alUpdate acc (compKey cid (compKey pid rg_id))
        ⟨cid, aid, cname, pid, pname, rg_id, rg_name, rg_data⟩
    | none => acc

/-- Body of the `for product in products` loop (lines 190-230), threading the
`(product_usage, reporting_group_usage)` pair. -/
def productStep (api : Api) (cid aid cname month : String)
    (acc : List (String × PURecord) × List (String × RGRecord))
    (product : ProductInfo) :
    List (String × PURecord) × List (String × RGRecord) :=
  match truthy? product.productId with
  | none => acc
  | some pid =>
    let pname := product.productName.getD "Unknown"
    let pu :=
      match (api.get_product_usage cid aid (some pid) month).1 with
      | some usage_data =>
        alUpdate acc.1 (compKey cid pid) ⟨cid, aid, cname, pid, pname, usage_data⟩
      | none => acc.1
    let rgu := product.reportingGroups.foldl (rgStep api cid aid cname month pid pname) acc.2
    (pu, rgu)

/-- `process_contract` (lines 147-233): list the contract's products, then
sequentially query usage (and reporting-group usage) for each product,
skipping any leaf whose response is falsy; a falsy or failed listing is
fatal to the contract, an empty extracted product list is a success. -/
def process_contract (api : Api) (month next_month : String) (c : Contract) : ContractResult :=
  let r0 := initResult c
  match truthy? (api.get_products c.contract_id c.account_id month next_month).2,
        (api.get_products c.contract_id c.account_id month next_month).1 with
  | some e, _ => { r0 with error := some ("Product 목록 조회 실패: " ++ e) }
  | none, none => { r0 with error := some "Product 데이터 없음" }
  | none, some products_data =>
    match extract_products products_data with
    | [] =>
      { r0 with products := some products_data, success := true,
                error := some "사용 중인 Product 없음" }
    | p :: ps =>
      let maps := (p :: ps).foldl
        (productStep api c.contract_id c.account_id c.company_name month) ([], [])
      { r0 with products := some products_data, success := true,
                product_usage := maps.1, reporting_group_usage := maps.2 }

/-! ### Aggregation: collect_all (src/tasks/akamai_billing/main.py, lines 238-297) -/

/-- One value of the `all_products` map. -/
structure ProductsEntry where
  accountId : String
  companyName : String
  data : ProductsData
deriving Repr, DecidableEq

/-- One element of the `failed` ledger. -/
structure FailEntry where
  contract_id : String
  company_name : String
  reason : Option String
deriving Repr, DecidableEq

/-- The dict returned by `collect_all`. -/
structure Aggregate where
  products : List (String × ProductsEntry)
  product_usage : List (String × PURecord)
  reporting_group_usage : List (String × RGRecord)
  success_count : Nat
  failed : List FailEntry
deriving Repr, DecidableEq

def initAgg : Aggregate := ⟨[], [], [], 0, []⟩

/-- Handling of one completed future (lines 261-289).  A worker is a
function `Contract → Except String ContractResult`: `Except.error e` models
an unexpected exception re-raised by `future.result()` (caught at lines
286-289), `Except.ok r` a normally returned result dict. -/
def collectStep (worker : Contract → Except String ContractResult)
    (agg : Aggregate) (c : Contract) : Aggregate :=
  match worker c with
  | Except.error e =>
    { agg with failed := agg.failed ++ [⟨c.contract_id, c.company_name, some e⟩] }
  | Except.ok r =>
    if r.success then
      let products' :=
        match r.products with
        | some pd => alUpdate agg.products r.contract_id ⟨r.account_id, r.company_name, pd⟩
        | none => agg.products
      { agg with
        products := products',
        product_usage := alUpdateAll agg.product_usage r.product_usage,
        reporting_group_usage :=
          alUpdateAll agg.reporting_group_usage r.reporting_group_usage,
        success_count := agg.success_count + 1 }
    else
      { agg with failed := agg.failed ++ [⟨r.contract_id, r.company_name, r.error⟩] }

/-- `collect_all` drains completed futures in completion order and merges
them; `order` is the completion order (a permutation of the submitted
contract list). -/
def collect_all_with (worker : Contract → Except String ContractResult)
    (order : List Contract) : Aggregate :=
  order.foldl (collectStep worker) initAgg

/-- The worker actually submitted to the pool (line 255). -/
def pcWorker (api : Api) (month next_month : String) : Contract → Except String ContractResult :=
  fun c => Except.ok (process_contract api month next_month c)

def collect_all (api : Api) (month next_month : String) (order : List Contract) : Aggregate :=
  collect_all_with (pcWorker api month next_month) order

/-! ### main guard around the probe (src/tasks/akamai_billing/main.py, lines 488-507) -/

/-- Outcome of the probe phase of `main`: early return on an empty contract
list, an unhandled `ZeroDivisionError`, or a verdict. -/
inductive MainProbeOutcome where
  | emptyContracts
  | probeRaised
  | probed (is_ready : Bool) (report : String)
deriving Repr, DecidableEq

/-- Fragment of `main` (lines 488-507): after fetching the contract list,
`main` returns early when it is empty (`if not contracts: ... return`) and
only otherwise calls `check_data_status`. -/
def mainProbePhase (api : Api) (contracts : List Contract)
    (billing_month next_month : String) : MainProbeOutcome :=
  if contracts.isEmpty then MainProbeOutcome.emptyContracts
  else
    match check_data_status api contracts billing_month next_month with
    | none => MainProbeOutcome.probeRaised
    | some (b, r) => MainProbeOutcome.probed b r

/-! ### Decomposition of the aggregation (defs used to state properties) -/

/-- Key list of a Python dict. -/
def keysOf {α : Type} (m : List (String × α)) : List String := m.map Prod.fst

/-- The product-usage map a worker's result contributes to the aggregate
(nothing for a failed result or an escaped exception). -/
def puOf (worker : Contract → Except String ContractResult) (c : Contract) :
    List (String × PURecord) :=
  match worker c with
  | Except.ok r => if r.success then r.product_usage else []
  | Except.error _ => []

/-- The reporting-group-usage map a worker's result contributes. -/
def rgOf (worker : Contract → Except String ContractResult) (c : Contract) :
    List (String × RGRecord) :=
  match worker c with
  | Except.ok r => if r.success then r.reporting_group_usage else []
  | Except.error _ => []

/-- The `all_products` entries a worker's result contributes (at most one). -/
def prodEntryOf (worker : Contract → Except String ContractResult) (c : Contract) :
    List (String × ProductsEntry) :=
  match worker c with
  | Except.ok r =>
    if r.success then
      match r.products with
      | some pd => [(r.contract_id, ⟨r.account_id, r.company_name, pd⟩)]
      | none => []
    else []
  | Except.error _ => []

/-- Whether a worker's result counts towards `success_count`. -/
def okSucc (worker : Contract → Except String ContractResult) (c : Contract) : Bool :=
  match worker c with
  | Except.ok r => r.success
  | Except.error _ => false

/-- The failure-ledger entry a worker's result contributes (at most one). -/
def failEntryOf (worker : Contract → Except String ContractResult) (c : Contract) :
    Option FailEntry :=
  match worker c with
  | Except.error e => some ⟨c.contract_id, c.company_name, some e⟩
  | Except.ok r =>
    if r.success then none else some ⟨r.contract_id, r.company_name, r.error⟩

/-! ### Per-unit write lists (defs used to state key-uniqueness properties) -/

/-- The product-usage write `process_contract` performs for one listed
product, if any: key `f"{cid}_{pid}"` and the stored record. -/
def puWriteOf (api : Api) (cid aid cname month : String) (p : ProductInfo) :
    Option (String × PURecord) :=
  match truthy? p.productId with
  | none => none
  | some pid =>
    match (api.get_product_usage cid aid (some pid) month).1 with
    | some usage_data =>
      some (compKey cid pid, ⟨cid, aid, cname, pid, p.productName.getD "Unknown", usage_data⟩)
    | none => none

def puWrites (api : Api) (cid aid cname month : String) (ps : List ProductInfo) :
    List (String × PURecord) :=
  ps.filterMap (puWriteOf api cid aid cname month)

/-- The reporting-group-usage write for one reporting group of a product
with truthy id `pid`, if any: key `f"{cid}_{pid}_{rg_id}"`. -/
def rgWriteOf (api : Api) (cid aid cname month pid pname : String) (rg : RepGroup) :
    Option (String × RGRecord) :=
  match truthy? rg.reportingGroupId with
  | none => none
  | some rg_id =>
    match (api.get_reporting_group_usage aid rg_id pid month).1 with
    | some rg_data =>
      some (compKey cid (compKey pid rg_id),
        ⟨cid, aid, cname, pid, pname, rg_id, rg.reportingGroupName.getD "Unknown", rg_data⟩)
    | none => none

def rgWritesOfProduct (api : Api) (cid aid cname month : String) (p : ProductInfo) :
    List (String × RGRecord) :=
  match truthy? p.productId with
  | none => []
  | some pid =>
    p.reportingGroups.filterMap
      (rgWriteOf api cid aid cname month pid (p.productName.getD "Unknown"))

def rgWrites (api : Api) (cid aid cname month : String) (ps : List ProductInfo) :
    List (String × RGRecord) :=
  (ps.map (rgWritesOfProduct api cid aid cname month)).flatten

/-- Apply an optional write to a Python dict. -/
def applyWrite {α : Type} (acc : List (String × α)) :
    Option (String × α) → List (String × α)
  | some (k, v) => alUpdate acc k v
  | none => acc

/-- The product list a contract's traversal iterates over: the extracted
products when the listing succeeded and was truthy, `[]` otherwise. -/
def listedProducts (api : Api) (month next_month : String) (c : Contract) :
    List ProductInfo :=
  match truthy? (api.get_products c.contract_id c.account_id month next_month).2,
        (api.get_products c.contract_id c.account_id month next_month).1 with
  | none, some pd => extract_products pd
  | _, _ => []

/-- All product-usage records a contract's traversal writes. -/
def unitPu (api : Api) (month next_month : String) (c : Contract) :
    List (String × PURecord) :=
  puWrites api c.contract_id c.account_id c.company_name month
    (listedProducts api month next_month c)

/-- All reporting-group-usage records a contract's traversal writes. -/
def unitRg (api : Api) (month next_month : String) (c : Contract) :
    List (String × RGRecord) :=
  rgWrites api c.contract_id c.account_id c.company_name month
    (listedProducts api month next_month c)

/-! ### Identifier hygiene (hypotheses of the amended key-uniqueness claims) -/

/-- The identifier contains no underscore, so composite keys parse uniquely. -/
def usFree (s : String) : Prop := ¬ ('_' ∈ s.data)

instance (s : String) : Decidable (usFree s) := by
  unfold usFree
  infer_instance

/-- The truthy product ids of a listing, in order. -/
def truthyPids (ps : List ProductInfo) : List String :=
  ps.filterMap (fun p => truthy? p.productId)

/-- The truthy reporting-group ids of one product, in order. -/
def truthyRgids (p : ProductInfo) : List String :=
  p.reportingGroups.filterMap (fun rg => truthy? rg.reportingGroupId)

/-- Identifier hygiene for one contract's listing: underscore-free contract
id, duplicate-free underscore-free product ids, duplicate-free
reporting-group ids per product. -/
def GoodUnit (api : Api) (month next_month : String) (c : Contract) : Prop :=
  usFree c.contract_id ∧
  (truthyPids (listedProducts api month next_month c)).Nodup ∧
  (∀ pid ∈ truthyPids (listedProducts api month next_month c), usFree pid) ∧
  (∀ p ∈ listedProducts api month next_month c, (truthyRgids p).Nodup)

instance (api : Api) (month next_month : String) (c : Contract) :
    Decidable (GoodUnit api month next_month c) := by
  unfold GoodUnit
  infer_instance

/-- Identifier hygiene for a run: pairwise-distinct contract ids and
per-contract hygiene. -/
def GoodRun (api : Api) (month next_month : String) (order : List Contract) : Prop :=
  (order.map (fun c => c.contract_id)).Nodup ∧
  ∀ c ∈ order, GoodUnit api month next_month c

instance (api : Api) (month next_month : String) (order : List Contract) :
    Decidable (GoodRun api month next_month order) := by
  unfold GoodRun
  infer_instance

/-- The status histogram accumulated by `check_data_status` over its sample
(empty when the probe raises). -/
def probeStatuses (api : Api) (contracts : List Contract)
    (billing_month next_month : String) : List (String × Nat) :=
  match probeSamples contracts with
  | none => []
  | some samples =>
    (samples.foldl (probeSample api billing_month next_month) ([], [])).1

/-! ### Concrete fixtures used by witnesses, scenarios and counterexamples -/

def cA : Contract := ⟨"ctr-A", "acct-A", "Alpha", some 1⟩

def cB : Contract := ⟨"ctr-B", "acct-B", "Beta", some 2⟩

def cC : Contract := ⟨"ctr-C", "acct-C", "Gamma", some 3⟩

/-- A products response listing one product `P1` with no reporting groups. -/
def pdSingle : ProductsData := ⟨some [⟨some "P1", some "Prod One", []⟩], none⟩

/-- An oracle on which every call fails. -/
def apiAllFail : Api :=
  ⟨fun _ _ _ _ => (none, some "HTTP 500"),
   fun _ _ _ _ => (none, some "HTTP 500"),
   fun _ _ _ _ => (none, some "HTTP 500")⟩

/-- An oracle on which every listing returns `pdSingle` and every usage
query reports `DONE`. -/
def apiAllDone : Api :=
  ⟨fun _ _ _ _ => (some pdSingle, none),
   fun _ _ _ _ => (some ⟨some "DONE", "ok"⟩, none),
   fun _ _ _ _ => (none, some "HTTP 404")⟩

/-- A products response listing three products `PA`, `PB`, `PC`. -/
def pdTriple : ProductsData :=
  ⟨some [⟨some "PA", some "Prod A", []⟩, ⟨some "PB", some "Prod B", []⟩,
    ⟨some "PC", some "Prod C", []⟩], none⟩

/-- An oracle listing `pdTriple` everywhere, on which the usage query for
`PB` returns a falsy payload and every other usage query succeeds. -/
def apiLeafFail : Api :=
  ⟨fun _ _ _ _ => (some pdTriple, none),
   fun _ _ pid _ =>
     (if pid = some "PB" then none else some ⟨some "DONE", "ok"⟩, none),
   fun _ _ _ _ => (none, some "HTTP 404")⟩

/-- Like `apiAllDone`, but contract `ctr-B`'s usage is still
`COLLECTING_DATA`. -/
def apiOneCollecting : Api :=
  ⟨fun _ _ _ _ => (some pdSingle, none),
   fun cid _ _ _ =>
     (some ⟨some (if cid = "ctr-B" then "COLLECTING_DATA" else "DONE"), "ok"⟩, none),
   fun _ _ _ _ => (none, some "HTTP 404")⟩

/-- Contract with id `u` (underscore-free). -/
def uX : Contract := ⟨"u", "aX", "X", none⟩

/-- Contract with id `u_p`: distinct from `u`, but its composite keys can
collide with `u`'s because of the underscore. -/
def uY : Contract := ⟨"u_p", "aY", "Y", none⟩

/-- Contract whose listing contains two products with the same id. -/
def uZ : Contract := ⟨"z", "aZ", "Z", none⟩

/-- Oracle for the key-collision counterexamples: `u` lists product `p_q`,
`u_p` lists product `q` (so both write the key `u_p_q`), and `z` lists two
products that share the id `d`; every usage query succeeds with a payload
recording the contract id. -/
def apiCollide : Api :=
  ⟨fun cid _ _ _ =>
     (some (if cid = "u" then ⟨some [⟨some "p_q", some "P1", []⟩], none⟩
       else if cid = "u_p" then ⟨some [⟨some "q", some "P2", []⟩], none⟩
       else ⟨some [⟨some "d", some "first", []⟩, ⟨some "d", some "second", []⟩],
         none⟩), none),
   fun cid _ _ _ => (some ⟨some "DONE", cid⟩, none),
   fun _ _ _ _ => (none, some "HTTP 404")⟩

/-- Ten contracts with pairwise-distinct ids, two of which (`u`, `u_p`)
produce colliding composite keys under `apiTenBad`. -/
def unitsTenBad : List Contract :=
  [uX, uY, ⟨"d2", "a2", "Co2", none⟩, ⟨"d3", "a3", "Co3", none⟩,
   ⟨"d4", "a4", "Co4", none⟩, ⟨"d5", "a5", "Co5", none⟩,
   ⟨"d6", "a6", "Co6", none⟩, ⟨"d7", "a7", "Co7", none⟩,
   ⟨"d8", "a8", "Co8", none⟩, ⟨"d9", "a9", "Co9", none⟩]

/-- Oracle giving every contract exactly two products with no nesting and
always-succeeding usage queries; `u` gets `p_q`/`x` and `u_p` gets `q`/`y`,
every other contract gets `a`/`b`. -/
def apiTenBad : Api :=
  ⟨fun cid _ _ _ =>
     (some (if cid = "u" then
         ⟨some [⟨some "p_q", some "P", []⟩, ⟨some "x", some "P", []⟩], none⟩
       else if cid = "u_p" then
         ⟨some [⟨some "q", some "P", []⟩, ⟨some "y", some "P", []⟩], none⟩
       else ⟨some [⟨some "a", some "P", []⟩, ⟨some "b", some "P", []⟩], none⟩),
      none),
   fun cid _ _ _ => (some ⟨some "DONE", cid⟩, none),
   fun _ _ _ _ => (none, some "HTTP 404")⟩

/-- Ten contracts with pairwise-distinct underscore-free ids. -/
def unitsTenGood : List Contract :=
  [⟨"e0", "a0", "Co0", none⟩, ⟨"e1", "a1", "Co1", none⟩,
   ⟨"e2", "a2", "Co2", none⟩, ⟨"e3", "a3", "Co3", none⟩,
   ⟨"e4", "a4", "Co4", none⟩, ⟨"e5", "a5", "Co5", none⟩,
   ⟨"e6", "a6", "Co6", none⟩, ⟨"e7", "a7", "Co7", none⟩,
   ⟨"e8", "a8", "Co8", none⟩, ⟨"e9", "a9", "Co9", none⟩]

/-- Oracle giving every contract exactly the two products `a` and `b` with
no nesting; every call succeeds. -/
def apiTenGood : Api :=
  ⟨fun _ _ _ _ =>
     (some ⟨some [⟨some "a", some "P", []⟩, ⟨some "b", some "P", []⟩], none⟩, none),
   fun cid _ _ _ => (some ⟨some "DONE", cid⟩, none),
   fun _ _ _ _ => (none, some "HTTP 404")⟩

/-! ### Theorems -/

theorem length_filter_le_filter {α : Type} (p q : α → Bool) :
    ∀ l : List α, (∀ a ∈ l, p a = true → q a = true) →
      (l.filter p).length ≤ (l.filter q).length := by
  intro l
  induction l with
  | nil => intro _; simp
  | cons a t ih =>
    intro h
    by_cases hp : p a = true
    · rw [List.filter_cons_of_pos hp,
        List.filter_cons_of_pos (h a (List.mem_cons_self a t) hp)]
      simpa using ih (fun x hx => h x (List.mem_cons_of_mem a hx))
    · rw [List.filter_cons_of_neg (by simpa using hp)]
      by_cases hq : q a = true
      · rw [List.filter_cons_of_pos hq]
        exact le_trans (ih (fun x hx => h x (List.mem_cons_of_mem a hx)))
          (by simp)
      · rw [List.filter_cons_of_neg (by simpa using hq)]
        exact ih (fun x hx => h x (List.mem_cons_of_mem a hx))

theorem filter_filter_of_imp {α : Type} (p q : α → Bool) :
    ∀ l : List α, (∀ a ∈ l, p a = true → q a = true) →
      (l.filter q).filter p = l.filter p := by
  intro l
  induction l with
  | nil => intro _; simp
  | cons a t ih =>
    intro h
    have ht : (t.filter q).filter p = t.filter p :=
      ih (fun x hx => h x (List.mem_cons_of_mem a hx))
    by_cases hp : p a = true
    · rw [List.filter_cons_of_pos (h a (List.mem_cons_self a t) hp),
        List.filter_cons_of_pos hp, List.filter_cons_of_pos hp, ht]
    · by_cases hq : q a = true
      · rw [List.filter_cons_of_pos hq, List.filter_cons_of_neg (by simpa using hp),
          List.filter_cons_of_neg (by simpa using hp), ht]
      · rw [List.filter_cons_of_neg (by simpa using hq),
          List.filter_cons_of_neg (by simpa using hp), ht]

theorem RLInv_init (max_per_minute : Int) : RLInv max_per_minute 0 rlInit := by
  refine ⟨by simp [rlInit], by simp [rlInit], ?_⟩
  intro e
  simp [rlInit, windowCount]

theorem RLInv_step (L : Int) (prev now : Nat) (s : RLState) (hmono : prev ≤ now)
    (h : RLInv L prev s) : RLInv L now ((acquireStep L now s).1) := by
  obtain ⟨hle, hreq, hwin⟩ := h
  have hpr : s.request_times.filter (fun t => decide (now - t < 60)) =
      s.history.filter (fun t => decide (now - t < 60)) := by
    rw [hreq]
    exact filter_filter_of_imp _ _ s.history
      (fun a _ hp => by
        simp only [decide_eq_true_eq] at hp ⊢
        omega)
  unfold acquireStep
  by_cases hcond : ((s.request_times.filter (fun t => decide (now - t < 60))).length : Int) < L
  · simp only [hcond, if_pos]
    refine ⟨?_, ?_, ?_⟩
    · intro t ht
      rcases List.mem_append.1 ht with h1 | h2
      · exact le_trans (hle t h1) hmono
      · simp at h2; omega
    · rw [List.filter_append, hpr]
      simp
    · intro e
      unfold windowCount
      rw [List.filter_append, List.length_append]
      by_cases he : (decide (now ≤ e) && decide (e - now < 60)) = true
      · have hnow : now ≤ e ∧ e - now < 60 := by
          simp only [Bool.and_eq_true, decide_eq_true_eq] at he; exact he
        have hsub : (s.history.filter
            (fun t => decide (t ≤ e) && decide (e - t < 60))).length ≤
            (s.history.filter (fun t => decide (now - t < 60))).length := by
          apply length_filter_le_filter
          intro a _ hp
          simp only [Bool.and_eq_true, decide_eq_true_eq] at hp ⊢
          omega
        rw [← hpr] at hsub
        have h1 : (([now].filter
            (fun t => decide (t ≤ e) && decide (e - t < 60))).length) = 1 := by
          simp [he]
        rw [h1]
        push_cast
        have : ((s.history.filter
            (fun t => decide (t ≤ e) && decide (e - t < 60))).length : Int) + 1 ≤ L := by
          have := Int.ofNat_le.2 hsub
          omega
        exact le_trans this (le_max_left _ _)
      · have h0 : (([now].filter
            (fun t => decide (t ≤ e) && decide (e - t < 60))).length) = 0 := by
          simp only [List.filter, he]
          rfl
        rw [h0]
        simpa [windowCount] using hwin e
  · simp only [hcond, if_neg, not_false_iff]
    refine ⟨fun t ht => le_trans (hle t ht) hmono, by simpa using hpr, hwin⟩

theorem nondecreasing_cons {a b : Nat} {t : List Nat}
    (h : nondecreasing (a :: b :: t) = true) :
    a ≤ b ∧ nondecreasing (b :: t) = true := by
  simpa [nondecreasing, Bool.and_eq_true, decide_eq_true_eq] using h

theorem RLInv_run (L : Int) :
    ∀ (nows : List Nat) (prev : Nat) (s : RLState),
      nondecreasing (prev :: nows) = true → RLInv L prev s →
      RLInv L (lastD prev nows) (runAcquires L nows s) := by
  intro nows
  induction nows with
  | nil => intro prev s _ h; exact h
  | cons now rest ih =>
    intro prev s hmono h
    obtain ⟨h1, h2⟩ := nondecreasing_cons hmono
    have hstep := RLInv_step L prev now s h1 h
    simpa [runAcquires, lastD] using
      ih now ((acquireStep L now s).1) h2 hstep

theorem nondecreasing_zero_cons {nows : List Nat}
    (h : nondecreasing nows = true) : nondecreasing (0 :: nows) = true := by
  cases nows with
  | nil => rfl
  | cons a t => simp [nondecreasing, h]

/-- C1: For every RateLimiter constructed with a positive limit `N` and every
(serialized, clock-monotone) sequence of `acquire` loop passes issued by any
number of concurrent callers, no 60-second sliding window ever contains more
than `N` admitted timestamps, and the recorded `request_times` window never
holds more than `N` entries.  Each pass prunes timestamps older than 60
seconds under the lock, appends `now` and returns only if fewer than `N`
remain, and otherwise leaves the state untouched apart from the pruning
(the sleep happens outside the lock). -/
theorem rateLimiter_sliding_window_bound (N : Int) (hN : 0 < N)
    (nows : List Nat) (hmono : nondecreasing nows = true) :
    (∀ e, (windowCount (runAcquires N nows rlInit).history e : Int) ≤ N) ∧
    (((runAcquires N nows rlInit).request_times.length : Int) ≤ N) := by
  have hinv := RLInv_run N nows 0 rlInit (nondecreasing_zero_cons hmono)
    (RLInv_init N)
  obtain ⟨hle, hreq, hwin⟩ := hinv
  have hmax : max N 0 = N := by omega
  constructor
  · intro e
    have := hwin e
    rwa [hmax] at this
  · rw [hreq]
    have hsub : ((runAcquires N nows rlInit).history.filter
        (fun t => decide (lastD 0 nows - t < 60))).length ≤
        windowCount (runAcquires N nows rlInit).history (lastD 0 nows) := by
      unfold windowCount
      apply length_filter_le_filter
      intro a ha hp
      have := hle a ha
      simp only [Bool.and_eq_true, decide_eq_true_eq] at hp ⊢
      omega
    have hw := hwin (lastD 0 nows)
    rw [hmax] at hw
    have := Int.ofNat_le.2 hsub
    omega

/-- C1 witness: a concrete monotone schedule with limit 2. -/
theorem rateLimiter_sliding_window_bound_witness :
    (windowCount (runAcquires 2 [0, 10, 20, 70] rlInit).history 20 : Int) ≤ 2 :=
  (rateLimiter_sliding_window_bound 2 (by decide) [0, 10, 20, 70] (by decide)).1 20

/-- C6: A RateLimiter constructed with `limit ≤ 0` never admits: a loop pass
never returns successfully (for any state), never extends the admission
history, and from the freshly constructed state any sequence of passes
leaves the limiter exactly in its initial state (no timestamp is ever
appended). -/
theorem rateLimiter_nonpositive_never_admits (L : Int) (hL : L ≤ 0) :
    (∀ now s, (acquireStep L now s).2 = false) ∧
    (∀ now s, ((acquireStep L now s).1).history = s.history) ∧
    (∀ nows, runAcquires L nows rlInit = rlInit) := by
  have hno : ∀ (now : Nat) (s : RLState),
      ¬ (((s.request_times.filter (fun t => decide (now - t < 60))).length : Int) < L) := by
    intro now s
    have h0 : (0 : Int) ≤
        ((s.request_times.filter (fun t => decide (now - t < 60))).length : Int) :=
      Int.ofNat_nonneg _
    omega
  refine ⟨?_, ?_, ?_⟩
  · intro now s
    unfold acquireStep
    simp [hno now s]
  · intro now s
    unfold acquireStep
    simp [hno now s]
  · intro nows
    induction nows with
    | nil => rfl
    | cons now rest ih =>
      have hstep : (acquireStep L now rlInit).1 = rlInit := by
        have hneg : ¬ ((0 : Int) < L) := by omega
        unfold acquireStep
        simp [rlInit, hneg]
      simpa [runAcquires, hstep] using ih

/-- C6 witness: limit 0, a concrete pass and a concrete schedule. -/
theorem rateLimiter_nonpositive_never_admits_witness :
    (acquireStep 0 5 rlInit).2 = false ∧ runAcquires 0 [1, 2, 3] rlInit = rlInit := by
  have h := rateLimiter_nonpositive_never_admits 0 (by decide)
  exact ⟨h.1 5 rlInit, h.2.2 [1, 2, 3]⟩

theorem getIndexed_spec {α : Type} (l : List α) :
    ∀ idxs : List Nat, (∀ i ∈ idxs, i < l.length) →
      ∃ s, getIndexed l idxs = some s ∧ s.length = idxs.length ∧
        ∀ j x, idxs.get? j = some x → s.get? j = l.get? x := by
  intro idxs
  induction idxs with
  | nil =>
    intro _
    exact ⟨[], rfl, rfl, by intro j x h; simp at h⟩
  | cons i is ih =>
    intro h
    have hi : i < l.length := h i (List.mem_cons_self i is)
    obtain ⟨x, hx⟩ : ∃ x, l.get? i = some x := by
      cases hget : l.get? i with
      | none =>
        have := List.get?_eq_none.1 hget
        omega
      | some y => exact ⟨y, rfl⟩
    obtain ⟨s, hs, hlen, hcorr⟩ := ih (fun j hj => h j (List.mem_cons_of_mem i hj))
    refine ⟨x :: s, ?_, by simpa using hlen, ?_⟩
    · unfold getIndexed
      rw [hx, hs]
    · intro j y hy
      cases j with
      | zero =>
        simp only [List.get?] at hy
        cases hy
        simpa using hx.symm
      | succ j =>
        simp only [List.get?] at hy ⊢
        exact hcorr j y hy

theorem sampleIdxList_length (n : Nat) : (sampleIdxList n).length = min 5 n := by
  simp [sampleIdxList]

theorem sampleIdxList_lt (n : Nat) (hn : 0 < n) :
    ∀ i ∈ sampleIdxList n, i < n := by
  intro i hi
  unfold sampleIdxList at hi
  simp only [List.mem_map, List.mem_range] at hi
  obtain ⟨j, hj, rfl⟩ := hi
  by_cases h5 : 5 ≤ n
  · have hmin : min 5 n = 5 := min_eq_left h5
    rw [hmin] at hj ⊢
    have h1 : 1 ≤ n / 5 := by omega
    have hstep : max 1 (n / 5) = n / 5 := max_eq_right h1
    rw [hstep]
    interval_cases j <;> omega
  · have hmin : min 5 n = n := min_eq_right (by omega)
    rw [hmin] at hj ⊢
    have hdiv : n / n = 1 := Nat.div_self hn
    rw [hdiv]
    simpa using hj

theorem sampleIdxList_get (n : Nat) :
    ∀ j, j < min 5 n → (sampleIdxList n).get? j = some (j * max 1 (n / min 5 n)) := by
  intro j hj
  unfold sampleIdxList
  rw [List.get?_map, List.get?_range hj]
  rfl

/-- C5: For every non-empty contract list of size `M` (sample cap `K = 5`),
`check_data_status` samples exactly `min 5 M` contracts, at the
deterministic indices `i * step` for `i < sample_count` with
`step = max 1 (M / sample_count)`; every such index is in bounds, and the
selection is a pure function of the input, so repeated calls on the same
input select the same contracts. -/
theorem probe_sampling_spec (contracts : List Contract) (h : contracts ≠ []) :
    ∃ samples, probeSamples contracts = some samples ∧
      samples.length = min 5 contracts.length ∧
      (∀ j, j < min 5 contracts.length →
        samples.get? j =
          contracts.get? (j * max 1 (contracts.length / min 5 contracts.length))) ∧
      (∀ i ∈ sampleIdxList contracts.length, i < contracts.length) ∧
      probeSamples contracts = probeSamples contracts := by
  have hn : 0 < contracts.length := List.length_pos.2 h
  have hbound := sampleIdxList_lt contracts.length hn
  obtain ⟨s, hs, hlen, hcorr⟩ := getIndexed_spec contracts (sampleIdxList contracts.length) hbound
  refine ⟨s, ?_, ?_, ?_, hbound, rfl⟩
  · unfold probeSamples
    rw [if_neg (by omega), hs]
  · rw [hlen, sampleIdxList_length]
  · intro j hj
    exact hcorr j _ (sampleIdxList_get contracts.length j hj)

/-- C5 witness: three concrete contracts. -/
theorem probe_sampling_spec_witness :
    ∃ samples, probeSamples [cA, cB, cC] = some samples ∧
      samples.length = min 5 ([cA, cB, cC] : List Contract).length ∧
      (∀ j, j < min 5 ([cA, cB, cC] : List Contract).length →
        samples.get? j = ([cA, cB, cC] : List Contract).get?
          (j * max 1 (([cA, cB, cC] : List Contract).length /
            min 5 ([cA, cB, cC] : List Contract).length))) ∧
      (∀ i ∈ sampleIdxList ([cA, cB, cC] : List Contract).length,
        i < ([cA, cB, cC] : List Contract).length) ∧
      probeSamples [cA, cB, cC] = probeSamples [cA, cB, cC] :=
  probe_sampling_spec [cA, cB, cC] (by decide)

/-- C10: On the empty contract list `check_data_status` raises
(`ZeroDivisionError` from the unguarded `n // sample_count` with
`sample_count = min(5, 0) = 0`), modelled as `none`, instead of returning a
not-ready verdict; on every non-empty list it returns a verdict; and `main`
only calls the probe after its `if not contracts: return` guard, so the
raising branch is unreachable from `main`. -/
theorem probe_empty_list_raises :
    (∀ api billing_month next_month,
      check_data_status api [] billing_month next_month = none) ∧
    (∀ api contracts billing_month next_month, contracts ≠ [] →
      (check_data_status api contracts billing_month next_month).isSome = true) ∧
    (∀ api contracts billing_month next_month,
      mainProbePhase api contracts billing_month next_month ≠
        MainProbeOutcome.probeRaised) := by
  have hsome : ∀ (api : Api) (contracts : List Contract) (bm nm : String),
      contracts ≠ [] → (check_data_status api contracts bm nm).isSome = true := by
    intro api contracts bm nm h
    obtain ⟨s, hs, -, -, -, -⟩ := probe_sampling_spec contracts h
    unfold check_data_status
    rw [hs]
    rfl
  refine ⟨?_, hsome, ?_⟩
  · intro api bm nm
    rfl
  · intro api contracts bm nm
    unfold mainProbePhase
    by_cases hc : contracts.isEmpty
    · rw [if_pos hc]
      intro hcontra
      cases hcontra
    · rw [if_neg hc]
      have hne : contracts ≠ [] := by
        intro hnil
        rw [hnil] at hc
        exact hc rfl
      cases hval : check_data_status api contracts bm nm with
      | none =>
        have := hsome api contracts bm nm hne
        rw [hval] at this
        cases this
      | some p =>
        intro hcontra
        cases p
        simp at hcontra

/-- C10 witness: the guard conjunct at a concrete non-empty input. -/
theorem probe_empty_list_raises_witness :
    (check_data_status apiAllFail [cA] "2025-09" "2025-10").isSome = true :=
  probe_empty_list_raises.2.1 apiAllFail [cA] "2025-09" "2025-10" (by decide)

/-- C4: The readiness verdict is `true` iff the count of
`COLLECTING_DATA`-status samples is zero and at least one status was
observed; concretely, three `DONE` samples give ready, one `COLLECTING_DATA`
among three gives not ready, and if every sample errors (zero statuses
observed) the verdict is not ready. -/
theorem probe_verdict_rule :
    (∀ api contracts billing_month next_month b,
      (check_data_status api contracts billing_month next_month).map Prod.fst =
        some b →
      (b = true ↔
        (alLookup (probeStatuses api contracts billing_month next_month)
          "COLLECTING_DATA").getD 0 = 0 ∧
        probeStatuses api contracts billing_month next_month ≠ [])) ∧
    (check_data_status apiAllDone [cA, cB, cC] "2025-09" "2025-10").map Prod.fst =
      some true ∧
    (check_data_status apiOneCollecting [cA, cB, cC] "2025-09" "2025-10").map Prod.fst =
      some false ∧
    (check_data_status apiAllFail [cA, cB, cC] "2025-09" "2025-10").map Prod.fst =
      some false := by
  refine ⟨?_, by decide, by decide, by decide⟩
  intro api contracts bm nm b hb
  unfold check_data_status at hb
  cases hps : probeSamples contracts with
  | none =>
    rw [hps] at hb
    cases hb
  | some samples =>
    rw [hps] at hb
    simp only [Option.map_some] at hb
    have hstat : probeStatuses api contracts bm nm =
        (samples.foldl (probeSample api bm nm) ([], [])).1 := by
      unfold probeStatuses
      rw [hps]
    have hb' : b = probeVerdict (samples.foldl (probeSample api bm nm) ([], [])).1 := by
      cases hb
      rfl
    subst hb'
    rw [hstat]
    unfold probeVerdict
    rw [Bool.and_eq_true, decide_eq_true_eq, decide_eq_true_eq]
    constructor
    · intro ⟨h1, h2⟩
      exact ⟨h1, by
        intro hnil
        rw [hnil] at h2
        simp at h2⟩
    · intro ⟨h1, h2⟩
      exact ⟨h1, List.length_pos.2 h2⟩

/-- C4 witness: the iff instantiated on the all-`DONE` scenario. -/
theorem probe_verdict_rule_witness :
    true = true ↔
      (alLookup (probeStatuses apiAllDone [cA, cB, cC] "2025-09" "2025-10")
        "COLLECTING_DATA").getD 0 = 0 ∧
      probeStatuses apiAllDone [cA, cB, cC] "2025-09" "2025-10" ≠ [] :=
  probe_verdict_rule.1 apiAllDone [cA, cB, cC] "2025-09" "2025-10" true (by decide)

theorem keysOf_append {α : Type} (m m' : List (String × α)) :
    keysOf (m ++ m') = keysOf m ++ keysOf m' := by
  simp [keysOf]

theorem keysOf_cons {α : Type} (p : String × α) (m : List (String × α)) :
    keysOf (p :: m) = p.1 :: keysOf m := rfl

theorem alUpdate_of_not_mem {α : Type} (m : List (String × α)) (k : String) (v : α)
    (h : k ∉ keysOf m) : alUpdate m k v = m ++ [(k, v)] := by
  unfold alUpdate
  rw [if_neg]
  intro hany
  rw [List.any_eq_true] at hany
  obtain ⟨p, hp, hpk⟩ := hany
  rw [beq_iff_eq] at hpk
  subst hpk
  exact h (List.mem_map_of_mem Prod.fst hp)

theorem alUpdateAll_of_disjoint {α : Type} :
    ∀ (adds m : List (String × α)), (keysOf adds).Nodup →
      (∀ k ∈ keysOf adds, k ∉ keysOf m) →
      alUpdateAll m adds = m ++ adds := by
  intro adds
  induction adds with
  | nil =>
    intro m _ _
    simp [alUpdateAll]
  | cons a t ih =>
    intro m hnd hdisj
    rw [keysOf_cons, List.nodup_cons] at hnd
    have hk : a.1 ∉ keysOf m := hdisj a.1 (by rw [keysOf_cons]; exact List.mem_cons_self _ _)
    have hstep : alUpdate m a.1 a.2 = m ++ [a] := by
      rw [alUpdate_of_not_mem m a.1 a.2 hk]
    have htail : alUpdateAll (m ++ [a]) t = (m ++ [a]) ++ t := by
      apply ih (m ++ [a]) hnd.2
      intro k hkt
      rw [keysOf_append]
      intro hmem
      rcases List.mem_append.1 hmem with h1 | h2
      · exact hdisj k (by rw [keysOf_cons]; exact List.mem_cons_of_mem _ hkt) h1
      · have : k = a.1 := by
          simpa [keysOf] using h2
        exact hnd.1 (this ▸ hkt)
    calc alUpdateAll m (a :: t)
        = alUpdateAll (alUpdate m a.1 a.2) t := rfl
      _ = alUpdateAll (m ++ [a]) t := by rw [hstep]
      _ = (m ++ [a]) ++ t := htail
      _ = m ++ a :: t := by simp

theorem collectStep_eq (w : Contract → Except String ContractResult)
    (agg : Aggregate) (c : Contract) :
    collectStep w agg c =
      ⟨alUpdateAll agg.products (prodEntryOf w c),
       alUpdateAll agg.product_usage (puOf w c),
       alUpdateAll agg.reporting_group_usage (rgOf w c),
       agg.success_count + (okSucc w c).toNat,
       agg.failed ++ (failEntryOf w c).toList⟩ := by
  unfold collectStep prodEntryOf puOf rgOf okSucc failEntryOf
  cases w c with
  | error e => simp [alUpdateAll]
  | ok r =>
    by_cases hs : r.success
    · cases hpd : r.products with
      | none => simp [hs, alUpdateAll, hpd]
      | some pd => simp [hs, alUpdateAll, hpd]
    · simp [hs, alUpdateAll]

theorem collect_all_with_spec (w : Contract → Except String ContractResult) :
    ∀ (order : List Contract) (agg : Aggregate),
      order.foldl (collectStep w) agg =
        ⟨order.foldl (fun m c => alUpdateAll m (prodEntryOf w c)) agg.products,
         order.foldl (fun m c => alUpdateAll m (puOf w c)) agg.product_usage,
         order.foldl (fun m c => alUpdateAll m (rgOf w c)) agg.reporting_group_usage,
         agg.success_count + order.countP (okSucc w),
         agg.failed ++ order.filterMap (failEntryOf w)⟩ := by
  intro order
  induction order with
  | nil =>
    intro agg
    simp
  | cons c t ih =>
    intro agg
    rw [List.foldl_cons, collectStep_eq, ih]
    simp only [List.foldl_cons, List.countP_cons, List.filterMap_cons]
    congr 1
    · cases h : okSucc w c <;> simp [h] <;> omega
    · cases h : failEntryOf w c <;> simp [h]

theorem collect_all_with_eq (w : Contract → Except String ContractResult)
    (order : List Contract) :
    collect_all_with w order =
      ⟨order.foldl (fun m c => alUpdateAll m (prodEntryOf w c)) [],
       order.foldl (fun m c => alUpdateAll m (puOf w c)) [],
       order.foldl (fun m c => alUpdateAll m (rgOf w c)) [],
       order.countP (okSucc w),
       order.filterMap (failEntryOf w)⟩ := by
  unfold collect_all_with
  rw [collect_all_with_spec]
  simp [initAgg]

theorem contribs_empty_of_fail (w : Contract → Except String ContractResult)
    (c : Contract) (h : okSucc w c = false) :
    puOf w c = [] ∧ rgOf w c = [] ∧ prodEntryOf w c = [] := by
  unfold okSucc at h
  unfold puOf rgOf prodEntryOf
  cases hw : w c with
  | error e => simp
  | ok r =>
    rw [hw] at h
    have h' : r.success = false := h
    simp [h']

/-- C2: A contract whose top-level product listing fails (an error, or a
falsy payload) is marked failed with the error reason and collects no usage
records; in the aggregate, any worker outcome that is not a success (a
failed result, or an exception escaping the worker and re-raised by
`future.result()`) contributes exactly one failure-ledger entry and leaves
every other component of the aggregate exactly as if that contract were
absent, so all other contracts complete and appear unaffected; the entry
for an escaped exception carries the exception text. -/
theorem listing_failure_isolation :
    (∀ api month next_month c e,
      truthy? (api.get_products c.contract_id c.account_id month next_month).2 =
        some e →
      process_contract api month next_month c =
        { initResult c with error := some ("Product 목록 조회 실패: " ++ e) }) ∧
    (∀ api month next_month c,
      truthy? (api.get_products c.contract_id c.account_id month next_month).2 =
        none →
      (api.get_products c.contract_id c.account_id month next_month).1 = none →
      process_contract api month next_month c =
        { initResult c with error := some "Product 데이터 없음" }) ∧
    (∀ w pre post u, okSucc w u = false →
      (collect_all_with w (pre ++ u :: post)).products =
        (collect_all_with w (pre ++ post)).products ∧
      (collect_all_with w (pre ++ u :: post)).product_usage =
        (collect_all_with w (pre ++ post)).product_usage ∧
      (collect_all_with w (pre ++ u :: post)).reporting_group_usage =
        (collect_all_with w (pre ++ post)).reporting_group_usage ∧
      (collect_all_with w (pre ++ u :: post)).success_count =
        (collect_all_with w (pre ++ post)).success_count ∧
      (collect_all_with w (pre ++ u :: post)).failed =
        (collect_all_with w pre).failed ++ (failEntryOf w u).toList ++
          (collect_all_with w post).failed) ∧
    (∀ w u e, w u = Except.error e →
      failEntryOf w u = some ⟨u.contract_id, u.company_name, some e⟩) ∧
    (∀ (w : Contract → Except String ContractResult) u r,
      w u = Except.ok r → r.success = false →
      failEntryOf w u = some ⟨r.contract_id, r.company_name, r.error⟩) := by
  refine ⟨?_, ?_, ?_, ?_, ?_⟩
  · intro api month next_month c e h
    unfold process_contract
    rw [h]
  · intro api month next_month c h1 h2
    unfold process_contract
    rw [h1, h2]
  · intro w pre post u hfail
    obtain ⟨hpu, hrg, hpe⟩ := contribs_empty_of_fail w u hfail
    simp only [collect_all_with_eq]
    refine ⟨?_, ?_, ?_, ?_, ?_⟩
    · rw [List.foldl_append, List.foldl_append, List.foldl_cons, hpe]
      simp [alUpdateAll]
    · rw [List.foldl_append, List.foldl_append, List.foldl_cons, hpu]
      simp [alUpdateAll]
    · rw [List.foldl_append, List.foldl_append, List.foldl_cons, hrg]
      simp [alUpdateAll]
    · simp [List.countP_append, List.countP_cons, hfail]
    · rw [List.filterMap_append, List.filterMap_cons]
      cases hfe : failEntryOf w u <;> simp [hfe]
  · intro w u e h
    unfold failEntryOf
    rw [h]
  · intro w u r h hs
    unfold failEntryOf
    rw [h]
    simp [hs]

/-- C2 witness: a failing listing on `cA` among succeeding `cB`, `cC`. -/
theorem listing_failure_isolation_witness :
    process_contract apiAllFail "2025-09" "2025-10" cA =
      { initResult cA with error := some ("Product 목록 조회 실패: " ++ "HTTP 500") } ∧
    (collect_all_with (pcWorker apiAllFail "2025-09" "2025-10") [cB, cA, cC]).success_count =
      (collect_all_with (pcWorker apiAllFail "2025-09" "2025-10") [cB, cC]).success_count := by
  constructor
  · exact listing_failure_isolation.1 apiAllFail "2025-09" "2025-10" cA "HTTP 500" (by decide)
  · exact (listing_failure_isolation.2.2.1 (pcWorker apiAllFail "2025-09" "2025-10")
      [cB] [cC] cA (by decide)).2.2.2.1

theorem truthy?_some {s : String} (h : s ≠ "") : truthy? (some s) = some s := by
  simp [truthy?, h]

theorem compKey_data (a b : String) :
    (compKey a b).data = a.data ++ '_' :: b.data := by
  have h1 : ("_" : String).data = ['_'] := rfl
  unfold compKey
  rw [String.data_append, String.data_append, h1]
  simp

theorem compKey_right_inj {s a b : String} (h : compKey s a = compKey s b) :
    a = b := by
  have hd := congrArg String.data h
  rw [compKey_data, compKey_data] at hd
  have := List.append_cancel_left hd
  exact String.ext (List.cons_injective this)

theorem sep_parse :
    ∀ (a b x y : List Char), '_' ∉ a → '_' ∉ b →
      a ++ '_' :: x = b ++ '_' :: y → a = b ∧ x = y := by
  intro a
  induction a with
  | nil =>
    intro b x y _ hb h
    cases b with
    | nil =>
      simp only [List.nil_append] at h
      exact ⟨rfl, List.cons_injective h⟩
    | cons d b' =>
      simp only [List.nil_append, List.cons_append, List.cons_eq_cons] at h
      exact absurd (by rw [h.1]; exact List.mem_cons_self d b' : '_' ∈ d :: b') hb
  | cons c' a' ih =>
    intro b x y ha hb h
    cases b with
    | nil =>
      simp only [List.cons_append, List.nil_append, List.cons_eq_cons] at h
      exact absurd (by rw [← h.1]; exact List.mem_cons_self c' a' : '_' ∈ c' :: a') ha
    | cons d b' =>
      simp only [List.cons_append, List.cons_eq_cons] at h
      obtain ⟨rfl, h2⟩ := h
      have ha' : '_' ∉ a' := fun hm => ha (List.mem_cons_of_mem _ hm)
      have hb' : '_' ∉ b' := fun hm => hb (List.mem_cons_of_mem _ hm)
      obtain ⟨he, hx⟩ := ih b' x y ha' hb' h2
      exact ⟨by rw [he], hx⟩

theorem compKey_usFree_inj {a b x y : String} (ha : usFree a) (hb : usFree b)
    (h : compKey a x = compKey b y) : a = b ∧ x = y := by
  have hd := congrArg String.data h
  rw [compKey_data, compKey_data] at hd
  obtain ⟨h1, h2⟩ := sep_parse a.data b.data x.data y.data ha hb hd
  exact ⟨String.ext h1, String.ext h2⟩

theorem process_contract_listing_ok (api : Api) (month next_month : String)
    (c : Contract) (pd : ProductsData)
    (h1 : truthy? (api.get_products c.contract_id c.account_id month next_month).2 = none)
    (h2 : (api.get_products c.contract_id c.account_id month next_month).1 = some pd) :
    process_contract api month next_month c =
      match extract_products pd with
      | [] =>
        { initResult c with
          products := some pd
          success := true
          error := some "사용 중인 Product 없음" }
      | p :: ps =>
        { initResult c with
          products := some pd
          success := true
          product_usage := ((p :: ps).foldl (productStep api c.contract_id
            c.account_id c.company_name month) ([], [])).1
          reporting_group_usage := ((p :: ps).foldl (productStep api c.contract_id
            c.account_id c.company_name month) ([], [])).2 } := by
  unfold process_contract
  rw [h1, h2]

/-- C3: Once a contract's top-level listing succeeds it is marked
successful regardless of how many leaves failed; and for a contract with 3
products (no nesting) whose second usage query fails, exactly the first and
third records appear, the reporting-group map is empty, and the contract is
successful. -/
theorem partial_leaf_tolerance :
    (∀ api month next_month c pd,
      truthy? (api.get_products c.contract_id c.account_id month next_month).2 =
        none →
      (api.get_products c.contract_id c.account_id month next_month).1 = some pd →
      (process_contract api month next_month c).success = true) ∧
    (∀ api month next_month (c : Contract) pd p1 p2 p3 a b2 c3 u1 u3,
      api.get_products c.contract_id c.account_id month next_month = (some pd, none) →
      extract_products pd = [p1, p2, p3] →
      p1.productId = some a → p2.productId = some b2 → p3.productId = some c3 →
      a ≠ "" → b2 ≠ "" → c3 ≠ "" → a ≠ c3 →
      p1.reportingGroups = [] → p2.reportingGroups = [] → p3.reportingGroups = [] →
      (api.get_product_usage c.contract_id c.account_id (some a) month).1 = some u1 →
      (api.get_product_usage c.contract_id c.account_id (some b2) month).1 = none →
      (api.get_product_usage c.contract_id c.account_id (some c3) month).1 = some u3 →
      (process_contract api month next_month c).success = true ∧
      (process_contract api month next_month c).product_usage =
        [(compKey c.contract_id a,
          ⟨c.contract_id, c.account_id, c.company_name, a,
            p1.productName.getD "Unknown", u1⟩),
         (compKey c.contract_id c3,
          ⟨c.contract_id, c.account_id, c.company_name, c3,
            p3.productName.getD "Unknown", u3⟩)] ∧
      (process_contract api month next_month c).reporting_group_usage = []) := by
  constructor
  · intro api month next_month c pd h1 h2
    rw [process_contract_listing_ok api month next_month c pd h1 h2]
    cases extract_products pd with
    | nil => rfl
    | cons p ps => rfl
  · intro api month next_month c pd p1 p2 p3 a b2 c3 u1 u3
      hresp hex hp1 hp2 hp3 ha hb hc hac hr1 hr2 hr3 hu1 hu2 hu3
    have h1' : truthy? (api.get_products c.contract_id c.account_id month next_month).2 =
        none := by rw [hresp]; rfl
    have h2' : (api.get_products c.contract_id c.account_id month next_month).1 =
        some pd := by rw [hresp]
    have hkey : compKey c.contract_id a ≠ compKey c.contract_id c3 :=
      fun h => hac (compKey_right_inj h)
    have hbeq : (compKey c.contract_id a == compKey c.contract_id c3) = false :=
      beq_eq_false_iff_ne.mpr hkey
    rw [process_contract_listing_ok api month next_month c pd h1' h2', hex]
    simp [List.foldl_cons, List.foldl_nil, productStep,
      hp1, hp2, hp3, truthy?_some ha, truthy?_some hb, truthy?_some hc,
      hr1, hr2, hr3, hu1, hu2, hu3, alUpdate, hbeq]

/-- C3 witness: concrete 3-product contract whose middle leaf fails. -/
theorem partial_leaf_tolerance_witness :
    (process_contract apiLeafFail "2025-09" "2025-10" cA).success = true ∧
    (process_contract apiLeafFail "2025-09" "2025-10" cA).product_usage.length = 2 := by
  have h := partial_leaf_tolerance.2 apiLeafFail "2025-09" "2025-10" cA pdTriple
    ⟨some "PA", some "Prod A", []⟩ ⟨some "PB", some "Prod B", []⟩
    ⟨some "PC", some "Prod C", []⟩
    "PA" "PB" "PC" ⟨some "DONE", "ok"⟩ ⟨some "DONE", "ok"⟩
    rfl rfl rfl rfl rfl (by decide) (by decide) (by decide) (by decide)
    rfl rfl rfl (by decide) (by decide) (by decide)
  exact ⟨h.1, by rw [h.2.1]; rfl⟩

theorem applyWrite_some {α : Type} (acc : List (String × α)) (k : String) (v : α) :
    applyWrite acc (some (k, v)) = alUpdate acc k v := rfl

theorem applyWrite_none {α : Type} (acc : List (String × α)) :
    applyWrite acc none = acc := rfl

theorem rgStep_eq (api : Api) (cid aid cname month pid pname : String)
    (acc : List (String × RGRecord)) (rg : RepGroup) :
    rgStep api cid aid cname month pid pname acc rg =
      applyWrite acc (rgWriteOf api cid aid cname month pid pname rg) := by
  unfold rgStep rgWriteOf
  cases htr : truthy? rg.reportingGroupId with
  | none => rfl
  | some rg_id =>
    cases hu : (api.get_reporting_group_usage aid rg_id pid month).1 with
    | some d => simp only [hu, applyWrite]
    | none => simp only [hu, applyWrite]

theorem foldl_write_append {α β : Type} (writeOf : β → Option (String × α))
    (step : List (String × α) → β → List (String × α))
    (hstep : ∀ acc b, step acc b = applyWrite acc (writeOf b)) :
    ∀ (bs : List β) (acc : List (String × α)),
      (keysOf (bs.filterMap writeOf)).Nodup →
      (∀ k ∈ keysOf (bs.filterMap writeOf), k ∉ keysOf acc) →
      bs.foldl step acc = acc ++ bs.filterMap writeOf := by
  intro bs
  induction bs with
  | nil =>
    intro acc _ _
    simp
  | cons b t ih =>
    intro acc hnd hdisj
    cases hw : writeOf b with
    | none =>
      rw [List.filterMap_cons_none hw] at hnd hdisj ⊢
      rw [List.foldl_cons, hstep, hw, applyWrite_none]
      exact ih acc hnd hdisj
    | some kv =>
      obtain ⟨k0, v0⟩ := kv
      rw [List.filterMap_cons_some hw] at hnd hdisj ⊢
      rw [keysOf_cons, List.nodup_cons] at hnd
      have hk : (k0, v0).1 ∉ keysOf acc :=
        hdisj (k0, v0).1 (by rw [keysOf_cons]; exact List.mem_cons_self _ _)
      have h1 : alUpdate acc k0 v0 = acc ++ [(k0, v0)] := by
        rw [alUpdate_of_not_mem _ _ _ hk]
      rw [List.foldl_cons, hstep, hw, applyWrite_some]
      rw [h1, ih (acc ++ [(k0, v0)]) hnd.2]
      · simp
      · intro k hkt
        rw [keysOf_append]
        intro hmem
        rcases List.mem_append.1 hmem with hh | hh
        · exact hdisj k (by rw [keysOf_cons]; exact List.mem_cons_of_mem _ hkt) hh
        · have : k = k0 := by simpa [keysOf] using hh
          exact hnd.1 (this ▸ hkt)

theorem filterMap_sublist {α β : Type} (f g : α → Option β)
    (h : ∀ a x, f a = some x → g a = some x) :
    ∀ l : List α, (l.filterMap f).Sublist (l.filterMap g) := by
  intro l
  induction l with
  | nil => simp
  | cons a t ih =>
    cases hf : f a with
    | none =>
      rw [List.filterMap_cons_none hf]
      cases hg : g a with
      | none =>
        rw [List.filterMap_cons_none hg]
        exact ih
      | some y =>
        rw [List.filterMap_cons_some hg]
        exact ih.cons y
    | some x =>
      rw [List.filterMap_cons_some hf, List.filterMap_cons_some (h a x hf)]
      exact ih.cons₂ x

theorem keysOf_filterMap {α β : Type} (f : β → Option (String × α)) (l : List β) :
    keysOf (l.filterMap f) = l.filterMap (fun b => (f b).map Prod.fst) := by
  simp [keysOf, List.map_filterMap]

theorem compKey_left_injective (cid : String) : Function.Injective (compKey cid) :=
  fun _ _ h => compKey_right_inj h

theorem puWriteOf_key (api : Api) (cid aid cname month : String) (p : ProductInfo)
    (k : String) (h : (puWriteOf api cid aid cname month p).map Prod.fst = some k) :
    (truthy? p.productId).map (compKey cid) = some k := by
  unfold puWriteOf at h
  cases htr : truthy? p.productId with
  | none =>
    rw [htr] at h
    simp at h
  | some pid =>
    rw [htr] at h
    cases hu : (api.get_product_usage cid aid (some pid) month).1 with
    | none => simp [hu] at h
    | some d =>
      simp [hu] at h
      simp [h]

theorem keysOf_puWrites_sublist (api : Api) (cid aid cname month : String)
    (ps : List ProductInfo) :
    (keysOf (puWrites api cid aid cname month ps)).Sublist
      ((truthyPids ps).map (compKey cid)) := by
  unfold puWrites
  rw [keysOf_filterMap]
  have h2 : (truthyPids ps).map (compKey cid) =
      ps.filterMap (fun p => (truthy? p.productId).map (compKey cid)) := by
    unfold truthyPids
    rw [List.map_filterMap]
  rw [h2]
  exact filterMap_sublist _ _ (puWriteOf_key api cid aid cname month) ps

theorem keysOf_puWrites_nodup (api : Api) (cid aid cname month : String)
    (ps : List ProductInfo) (hnd : (truthyPids ps).Nodup) :
    (keysOf (puWrites api cid aid cname month ps)).Nodup :=
  (keysOf_puWrites_sublist api cid aid cname month ps).nodup
    (hnd.map (compKey_left_injective cid))

theorem mem_keysOf_puWrites (api : Api) (cid aid cname month : String)
    (ps : List ProductInfo) (k : String)
    (h : k ∈ keysOf (puWrites api cid aid cname month ps)) :
    ∃ pid ∈ truthyPids ps, k = compKey cid pid := by
  have hmem := (keysOf_puWrites_sublist api cid aid cname month ps).mem h
  obtain ⟨pid, hpid, rfl⟩ := List.mem_map.1 hmem
  exact ⟨pid, hpid, rfl⟩

theorem rgKey_injective (cid pid : String) :
    Function.Injective (fun r => compKey cid (compKey pid r)) :=
  fun _ _ h => compKey_right_inj (compKey_right_inj h)

theorem rgWriteOf_key (api : Api) (cid aid cname month pid pname : String)
    (rg : RepGroup) (k : String)
    (h : (rgWriteOf api cid aid cname month pid pname rg).map Prod.fst = some k) :
    (truthy? rg.reportingGroupId).map (fun r => compKey cid (compKey pid r)) =
      some k := by
  unfold rgWriteOf at h
  cases htr : truthy? rg.reportingGroupId with
  | none =>
    rw [htr] at h
    simp at h
  | some rg_id =>
    rw [htr] at h
    cases hu : (api.get_reporting_group_usage aid rg_id pid month).1 with
    | none => simp [hu] at h
    | some d =>
      simp [hu] at h
      simp [h]

theorem keysOf_rgFilterMap_sublist (api : Api) (cid aid cname month pid pname : String)
    (rgs : List RepGroup) :
    (keysOf (rgs.filterMap (rgWriteOf api cid aid cname month pid pname))).Sublist
      ((rgs.filterMap (fun rg => truthy? rg.reportingGroupId)).map
        (fun r => compKey cid (compKey pid r))) := by
  rw [keysOf_filterMap]
  have h2 : (rgs.filterMap (fun rg => truthy? rg.reportingGroupId)).map
      (fun r => compKey cid (compKey pid r)) =
      rgs.filterMap (fun rg => (truthy? rg.reportingGroupId).map
        (fun r => compKey cid (compKey pid r))) := by
    rw [List.map_filterMap]
  rw [h2]
  exact filterMap_sublist _ _ (rgWriteOf_key api cid aid cname month pid pname) rgs

theorem keysOf_rgWritesOfProduct_nodup (api : Api) (cid aid cname month : String)
    (p : ProductInfo) (hnd : (truthyRgids p).Nodup) :
    (keysOf (rgWritesOfProduct api cid aid cname month p)).Nodup := by
  unfold rgWritesOfProduct
  cases htr : truthy? p.productId with
  | none => simp [keysOf]
  | some pid =>
    exact (keysOf_rgFilterMap_sublist api cid aid cname month pid
      (p.productName.getD "Unknown") p.reportingGroups).nodup
      (hnd.map (rgKey_injective cid pid))

theorem mem_keysOf_rgWritesOfProduct (api : Api) (cid aid cname month : String)
    (p : ProductInfo) (k : String)
    (h : k ∈ keysOf (rgWritesOfProduct api cid aid cname month p)) :
    ∃ pid rgid, truthy? p.productId = some pid ∧ rgid ∈ truthyRgids p ∧
      k = compKey cid (compKey pid rgid) := by
  unfold rgWritesOfProduct at h
  cases htr : truthy? p.productId with
  | none =>
    rw [htr] at h
    simp [keysOf] at h
  | some pid =>
    rw [htr] at h
    have hmem := (keysOf_rgFilterMap_sublist api cid aid cname month pid
      (p.productName.getD "Unknown") p.reportingGroups).mem h
    obtain ⟨rgid, hrgid, rfl⟩ := List.mem_map.1 hmem
    exact ⟨pid, rgid, rfl, hrgid, rfl⟩

theorem keysOf_flatten {α : Type} (L : List (List (String × α))) :
    keysOf L.flatten = (L.map keysOf).flatten := by
  unfold keysOf
  rw [List.map_flatten]

theorem mem_truthyPids {ps : List ProductInfo} {p : ProductInfo} {pid : String}
    (hp : p ∈ ps) (htp : truthy? p.productId = some pid) : pid ∈ truthyPids ps :=
  List.mem_filterMap.2 ⟨p, hp, htp⟩

theorem keysOf_rgWrites_nodup (api : Api) (cid aid cname month : String)
    (ps : List ProductInfo)
    (hnd : (truthyPids ps).Nodup)
    (husf : ∀ pid ∈ truthyPids ps, usFree pid)
    (hrg : ∀ p ∈ ps, (truthyRgids p).Nodup) :
    (keysOf (rgWrites api cid aid cname month ps)).Nodup := by
  unfold rgWrites
  rw [keysOf_flatten, List.map_map, List.nodup_flatten]
  constructor
  · intro l hl
    obtain ⟨p, hp, rfl⟩ := List.mem_map.1 hl
    exact keysOf_rgWritesOfProduct_nodup api cid aid cname month p (hrg p hp)
  · rw [List.pairwise_map]
    have hnd' : List.Pairwise (fun a b => a ≠ b)
        (ps.filterMap (fun p => truthy? p.productId)) := hnd
    have hpw : ps.Pairwise (fun p q => ∀ b ∈ truthy? p.productId,
        ∀ b' ∈ truthy? q.productId, b ≠ b') :=
      List.pairwise_filterMap.mp hnd'
    refine hpw.imp_of_mem ?_
    intro p q hp hq hne
    intro k hkp hkq
    obtain ⟨pid, rgid, htp, _, rfl⟩ :=
      mem_keysOf_rgWritesOfProduct api cid aid cname month p k hkp
    obtain ⟨pid', rgid', htq, _, heq⟩ :=
      mem_keysOf_rgWritesOfProduct api cid aid cname month q _ hkq
    have h2 : compKey pid rgid = compKey pid' rgid' := compKey_right_inj heq
    have hup : usFree pid := husf pid (mem_truthyPids hp htp)
    have huq : usFree pid' := husf pid' (mem_truthyPids hq htq)
    obtain ⟨hpp, -⟩ := compKey_usFree_inj hup huq h2
    exact hne pid (by simp [htp]) pid' (by simp [htq]) hpp

theorem mem_keysOf_rgWrites (api : Api) (cid aid cname month : String)
    (ps : List ProductInfo) (k : String)
    (h : k ∈ keysOf (rgWrites api cid aid cname month ps)) :
    ∃ rest, k = compKey cid rest := by
  unfold rgWrites at h
  rw [keysOf_flatten, List.map_map] at h
  obtain ⟨l, hl, hkl⟩ := List.mem_flatten.1 h
  obtain ⟨p, hp, rfl⟩ := List.mem_map.1 hl
  obtain ⟨pid, rgid, -, -, rfl⟩ :=
    mem_keysOf_rgWritesOfProduct api cid aid cname month p k hkl
  exact ⟨compKey pid rgid, rfl⟩

theorem puWriteOf_none (api : Api) (cid aid cname month : String) (p : ProductInfo)
    (htr : truthy? p.productId = none) :
    puWriteOf api cid aid cname month p = none := by
  simp only [puWriteOf, htr]

theorem puWriteOf_some (api : Api) (cid aid cname month : String) (p : ProductInfo)
    (pid : String) (ud : UsageData) (htr : truthy? p.productId = some pid)
    (hu : (api.get_product_usage cid aid (some pid) month).1 = some ud) :
    puWriteOf api cid aid cname month p =
      some (compKey cid pid,
        ⟨cid, aid, cname, pid, p.productName.getD "Unknown", ud⟩) := by
  simp only [puWriteOf, htr, hu]

theorem puWriteOf_some_none (api : Api) (cid aid cname month : String)
    (p : ProductInfo) (pid : String) (htr : truthy? p.productId = some pid)
    (hu : (api.get_product_usage cid aid (some pid) month).1 = none) :
    puWriteOf api cid aid cname month p = none := by
  simp only [puWriteOf, htr, hu]

theorem rgWritesOfProduct_none (api : Api) (cid aid cname month : String)
    (p : ProductInfo) (htr : truthy? p.productId = none) :
    rgWritesOfProduct api cid aid cname month p = [] := by
  simp only [rgWritesOfProduct, htr]

theorem rgWritesOfProduct_some (api : Api) (cid aid cname month : String)
    (p : ProductInfo) (pid : String) (htr : truthy? p.productId = some pid) :
    rgWritesOfProduct api cid aid cname month p =
      p.reportingGroups.filterMap
        (rgWriteOf api cid aid cname month pid (p.productName.getD "Unknown")) := by
  simp only [rgWritesOfProduct, htr]

theorem productStep_none (api : Api) (cid aid cname month : String)
    (acc : List (String × PURecord) × List (String × RGRecord)) (p : ProductInfo)
    (htr : truthy? p.productId = none) :
    productStep api cid aid cname month acc p = acc := by
  simp only [productStep, htr]

theorem productStep_some (api : Api) (cid aid cname month : String)
    (acc : List (String × PURecord) × List (String × RGRecord)) (p : ProductInfo)
    (pid : String) (htr : truthy? p.productId = some pid) :
    productStep api cid aid cname month acc p =
      (applyWrite acc.1 (puWriteOf api cid aid cname month p),
       p.reportingGroups.foldl
         (rgStep api cid aid cname month pid (p.productName.getD "Unknown")) acc.2) := by
  cases hu : (api.get_product_usage cid aid (some pid) month).1 with
  | none => simp only [productStep, puWriteOf, htr, hu, applyWrite]
  | some ud => simp only [productStep, puWriteOf, htr, hu, applyWrite]

theorem rgWrites_cons (api : Api) (cid aid cname month : String)
    (p : ProductInfo) (t : List ProductInfo) :
    rgWrites api cid aid cname month (p :: t) =
      rgWritesOfProduct api cid aid cname month p ++
        rgWrites api cid aid cname month t := by
  unfold rgWrites
  rw [List.map_cons, List.flatten_cons]

theorem foldl_productStep_append (api : Api) (cid aid cname month : String) :
    ∀ (ps : List ProductInfo) (acc1 : List (String × PURecord))
      (acc2 : List (String × RGRecord)),
      (keysOf (puWrites api cid aid cname month ps)).Nodup →
      (∀ k ∈ keysOf (puWrites api cid aid cname month ps), k ∉ keysOf acc1) →
      (keysOf (rgWrites api cid aid cname month ps)).Nodup →
      (∀ k ∈ keysOf (rgWrites api cid aid cname month ps), k ∉ keysOf acc2) →
      ps.foldl (productStep api cid aid cname month) (acc1, acc2) =
        (acc1 ++ puWrites api cid aid cname month ps,
         acc2 ++ rgWrites api cid aid cname month ps) := by
  intro ps
  induction ps with
  | nil =>
    intro acc1 acc2 _ _ _ _
    simp [puWrites, rgWrites]
  | cons p t ih =>
    intro acc1 acc2 hnd1 hd1 hnd2 hd2
    rw [rgWrites_cons, keysOf_append] at hnd2 hd2
    rw [List.nodup_append] at hnd2
    obtain ⟨hnd2p, hnd2t, hdisj2⟩ := hnd2
    rw [List.foldl_cons]
    cases htr : truthy? p.productId with
    | none =>
      rw [productStep_none api cid aid cname month _ p htr]
      have hpwn : puWrites api cid aid cname month (p :: t) =
          puWrites api cid aid cname month t := by
        unfold puWrites
        rw [List.filterMap_cons_none (puWriteOf_none api cid aid cname month p htr)]
      rw [hpwn] at hnd1 hd1 ⊢
      have hrgn := rgWritesOfProduct_none api cid aid cname month p htr
      rw [rgWrites_cons, hrgn, List.nil_append]
      refine ih acc1 acc2 hnd1 hd1 hnd2t ?_
      intro k hk
      exact hd2 k (List.mem_append.2 (Or.inr hk))
    | some pid =>
      rw [productStep_some api cid aid cname month _ p pid htr]
      -- reporting-group component of the step
      have hrgp := rgWritesOfProduct_some api cid aid cname month p pid htr
      have hrgfold : p.reportingGroups.foldl
          (rgStep api cid aid cname month pid (p.productName.getD "Unknown")) acc2 =
          acc2 ++ rgWritesOfProduct api cid aid cname month p := by
        rw [hrgp]
        refine foldl_write_append _ _
          (rgStep_eq api cid aid cname month pid (p.productName.getD "Unknown"))
          p.reportingGroups acc2 ?_ ?_
        · rw [← hrgp]
          exact hnd2p
        · intro k hk
          refine hd2 k ?_
          rw [← hrgp] at hk
          exact List.mem_append.2 (Or.inl hk)
      -- product-usage component of the step
      cases hu : (api.get_product_usage cid aid (some pid) month).1 with
      | none =>
        have hpwn : puWrites api cid aid cname month (p :: t) =
            puWrites api cid aid cname month t := by
          unfold puWrites
          rw [List.filterMap_cons_none
            (puWriteOf_some_none api cid aid cname month p pid htr hu)]
        rw [hpwn] at hnd1 hd1 ⊢
        rw [puWriteOf_some_none api cid aid cname month p pid htr hu,
          applyWrite_none, hrgfold, rgWrites_cons]
        have hres := ih acc1 (acc2 ++ rgWritesOfProduct api cid aid cname month p)
          hnd1 hd1 hnd2t ?_
        · rw [hres]
          simp
        · intro k hk
          rw [keysOf_append]
          intro hmem
          rcases List.mem_append.1 hmem with hh | hh
          · exact hd2 k (List.mem_append.2 (Or.inr hk)) hh
          · exact hdisj2 hh hk
      | some ud =>
        have hkv := puWriteOf_some api cid aid cname month p pid ud htr hu
        have hpwc : puWrites api cid aid cname month (p :: t) =
            (compKey cid pid,
              (⟨cid, aid, cname, pid, p.productName.getD "Unknown", ud⟩ : PURecord)) ::
              puWrites api cid aid cname month t := by
          unfold puWrites
          rw [List.filterMap_cons_some hkv]
        rw [hpwc] at hnd1 hd1 ⊢
        rw [keysOf_cons, List.nodup_cons] at hnd1
        have hknew : compKey cid pid ∉ keysOf acc1 :=
          hd1 (compKey cid pid) (by rw [keysOf_cons]; exact List.mem_cons_self _ _)
        have hupd : alUpdate acc1 (compKey cid pid)
            (⟨cid, aid, cname, pid, p.productName.getD "Unknown", ud⟩ : PURecord) =
            acc1 ++ [(compKey cid pid,
              ⟨cid, aid, cname, pid, p.productName.getD "Unknown", ud⟩)] :=
          alUpdate_of_not_mem _ _ _ hknew
        rw [hkv, applyWrite_some, hupd, hrgfold, rgWrites_cons]
        have hres := ih
          (acc1 ++ [(compKey cid pid,
            ⟨cid, aid, cname, pid, p.productName.getD "Unknown", ud⟩)])
          (acc2 ++ rgWritesOfProduct api cid aid cname month p)
          hnd1.2 ?_ hnd2t ?_
        · rw [hres]
          simp
        · intro k hk
          rw [keysOf_append]
          intro hmem
          rcases List.mem_append.1 hmem with hh | hh
          · exact hd1 k (by rw [keysOf_cons]; exact List.mem_cons_of_mem _ hk) hh
          · have : k = compKey cid pid := by simpa [keysOf] using hh
            exact hnd1.1 (this ▸ hk)
        · intro k hk
          rw [keysOf_append]
          intro hmem
          rcases List.mem_append.1 hmem with hh | hh
          · exact hd2 k (List.mem_append.2 (Or.inr hk)) hh
          · exact hdisj2 hh hk

theorem listedProducts_err (api : Api) (month next_month : String) (c : Contract)
    (e : String)
    (h : truthy? (api.get_products c.contract_id c.account_id month next_month).2 =
      some e) :
    listedProducts api month next_month c = [] := by
  unfold listedProducts
  cases hd : (api.get_products c.contract_id c.account_id month next_month).1 <;>
    rw [h]

theorem listedProducts_noneData (api : Api) (month next_month : String)
    (c : Contract)
    (h1 : truthy? (api.get_products c.contract_id c.account_id month next_month).2 =
      none)
    (h2 : (api.get_products c.contract_id c.account_id month next_month).1 = none) :
    listedProducts api month next_month c = [] := by
  unfold listedProducts
  rw [h1, h2]

theorem listedProducts_ok (api : Api) (month next_month : String) (c : Contract)
    (pd : ProductsData)
    (h1 : truthy? (api.get_products c.contract_id c.account_id month next_month).2 =
      none)
    (h2 : (api.get_products c.contract_id c.account_id month next_month).1 = some pd) :
    listedProducts api month next_month c = extract_products pd := by
  unfold listedProducts
  rw [h1, h2]

theorem process_contract_ids (api : Api) (month next_month : String) (c : Contract) :
    (process_contract api month next_month c).contract_id = c.contract_id ∧
    (process_contract api month next_month c).account_id = c.account_id ∧
    (process_contract api month next_month c).company_name = c.company_name := by
  cases ht : truthy? (api.get_products c.contract_id c.account_id month next_month).2 with
  | some e =>
    have hres : process_contract api month next_month c =
        { initResult c with error := some ("Product 목록 조회 실패: " ++ e) } := by
      unfold process_contract
      rw [ht]
    rw [hres]
    exact ⟨rfl, rfl, rfl⟩
  | none =>
    cases hd : (api.get_products c.contract_id c.account_id month next_month).1 with
    | none =>
      have hres : process_contract api month next_month c =
          { initResult c with error := some "Product 데이터 없음" } := by
        unfold process_contract
        rw [ht, hd]
      rw [hres]
      exact ⟨rfl, rfl, rfl⟩
    | some pd =>
      rw [process_contract_listing_ok api month next_month c pd ht hd]
      cases extract_products pd with
      | nil => exact ⟨rfl, rfl, rfl⟩
      | cons p ps => exact ⟨rfl, rfl, rfl⟩

theorem pcWorker_contribs (api : Api) (month next_month : String) (c : Contract)
    (hnd : (truthyPids (listedProducts api month next_month c)).Nodup)
    (husf : ∀ pid ∈ truthyPids (listedProducts api month next_month c), usFree pid)
    (hrg : ∀ p ∈ listedProducts api month next_month c, (truthyRgids p).Nodup) :
    puOf (pcWorker api month next_month) c = unitPu api month next_month c ∧
    rgOf (pcWorker api month next_month) c = unitRg api month next_month c := by
  unfold puOf rgOf pcWorker
  cases ht : truthy? (api.get_products c.contract_id c.account_id month next_month).2 with
  | some e =>
    have hres : process_contract api month next_month c =
        { initResult c with error := some ("Product 목록 조회 실패: " ++ e) } := by
      unfold process_contract
      rw [ht]
    have hlp := listedProducts_err api month next_month c e ht
    rw [hres]
    unfold unitPu unitRg
    rw [hlp]
    simp [initResult, puWrites, rgWrites]
  | none =>
    cases hd : (api.get_products c.contract_id c.account_id month next_month).1 with
    | none =>
      have hres : process_contract api month next_month c =
          { initResult c with error := some "Product 데이터 없음" } := by
        unfold process_contract
        rw [ht, hd]
      have hlp := listedProducts_noneData api month next_month c ht hd
      rw [hres]
      unfold unitPu unitRg
      rw [hlp]
      simp [initResult, puWrites, rgWrites]
    | some pd =>
      have hres := process_contract_listing_ok api month next_month c pd ht hd
      have hlp := listedProducts_ok api month next_month c pd ht hd
      rw [hlp] at hnd husf hrg
      unfold unitPu unitRg
      rw [hlp]
      cases hex : extract_products pd with
      | nil =>
        have hsucc : (process_contract api month next_month c).success = true := by
          rw [hres, hex]
        have hpu2 : (process_contract api month next_month c).product_usage = [] := by
          rw [hres, hex]
          rfl
        have hrg2 : (process_contract api month next_month c).reporting_group_usage =
            [] := by
          rw [hres, hex]
          rfl
        simp only [hsucc, hpu2, hrg2, if_true]
        simp [puWrites, rgWrites]
      | cons p ps =>
        rw [hex] at hnd husf hrg
        have hsucc : (process_contract api month next_month c).success = true := by
          rw [hres, hex]
        have hpu2 : (process_contract api month next_month c).product_usage =
            ((p :: ps).foldl (productStep api c.contract_id c.account_id
              c.company_name month) ([], [])).1 := by
          rw [hres, hex]
        have hrg2 : (process_contract api month next_month c).reporting_group_usage =
            ((p :: ps).foldl (productStep api c.contract_id c.account_id
              c.company_name month) ([], [])).2 := by
          rw [hres, hex]
        have hfold := foldl_productStep_append api c.contract_id c.account_id
          c.company_name month (p :: ps) [] []
          (keysOf_puWrites_nodup api c.contract_id c.account_id c.company_name
            month (p :: ps) hnd)
          (by simp [keysOf])
          (keysOf_rgWrites_nodup api c.contract_id c.account_id c.company_name
            month (p :: ps) hnd husf hrg)
          (by simp [keysOf])
        simp only [hsucc, hpu2, hrg2, hfold]
        simp

theorem foldl_congr_mem {α β : Type} (l : List β) (f g : α → β → α) (a : α)
    (h : ∀ acc b, b ∈ l → f acc b = g acc b) : l.foldl f a = l.foldl g a := by
  induction l generalizing a with
  | nil => rfl
  | cons b t ih =>
    rw [List.foldl_cons, List.foldl_cons, h a b (List.mem_cons_self b t)]
    exact ih _ (fun acc b' hb' => h acc b' (List.mem_cons_of_mem b hb'))

theorem foldl_alUpdateAll_flatten {α : Type} (f : Contract → List (String × α)) :
    ∀ (order : List Contract) (m : List (String × α)),
      (∀ c ∈ order, (keysOf (f c)).Nodup) →
      order.Pairwise (fun c c' => ∀ k ∈ keysOf (f c), k ∉ keysOf (f c')) →
      (∀ c ∈ order, ∀ k ∈ keysOf (f c), k ∉ keysOf m) →
      order.foldl (fun acc c => alUpdateAll acc (f c)) m =
        m ++ (order.map f).flatten := by
  intro order
  induction order with
  | nil =>
    intro m _ _ _
    simp
  | cons c t ih =>
    intro m hnd hpw hdm
    rw [List.foldl_cons,
      alUpdateAll_of_disjoint (f c) m (hnd c (List.mem_cons_self c t))
        (hdm c (List.mem_cons_self c t))]
    rw [List.pairwise_cons] at hpw
    rw [ih (m ++ f c) (fun c' hc' => hnd c' (List.mem_cons_of_mem c hc')) hpw.2 ?_]
    · simp
    · intro c' hc' k hk
      rw [keysOf_append]
      intro hmem
      rcases List.mem_append.1 hmem with hh | hh
      · exact hdm c' (List.mem_cons_of_mem c hc') k hk hh
      · exact hpw.1 c' hc' k hh hk

theorem prodEntryOf_cases (api : Api) (month next_month : String) (c : Contract) :
    prodEntryOf (pcWorker api month next_month) c = [] ∨
    ∃ v, prodEntryOf (pcWorker api month next_month) c = [(c.contract_id, v)] := by
  unfold prodEntryOf pcWorker
  by_cases hs : (process_contract api month next_month c).success
  · cases hp : (process_contract api month next_month c).products with
    | none =>
      left
      simp [hs, hp]
    | some pd =>
      right
      refine ⟨⟨(process_contract api month next_month c).account_id,
        (process_contract api month next_month c).company_name, pd⟩, ?_⟩
      simp [hs, hp, (process_contract_ids api month next_month c).1]
  · left
    simp [hs]

theorem mem_keysOf_prodEntryOf (api : Api) (month next_month : String)
    (c : Contract) (k : String)
    (h : k ∈ keysOf (prodEntryOf (pcWorker api month next_month) c)) :
    k = c.contract_id := by
  rcases prodEntryOf_cases api month next_month c with hc | ⟨v, hc⟩
  · rw [hc] at h
    simp [keysOf] at h
  · rw [hc] at h
    simpa [keysOf] using h

theorem keysOf_prodEntryOf_nodup (api : Api) (month next_month : String)
    (c : Contract) :
    (keysOf (prodEntryOf (pcWorker api month next_month) c)).Nodup := by
  rcases prodEntryOf_cases api month next_month c with hc | ⟨v, hc⟩ <;>
    simp [hc, keysOf]

theorem goodRun_pairwise_cid (order : List Contract)
    (h : (order.map (fun c => c.contract_id)).Nodup) :
    order.Pairwise (fun c c' => c.contract_id ≠ c'.contract_id) := by
  have h' : List.Pairwise (fun a b => a ≠ b)
      (order.map (fun c => c.contract_id)) := h
  exact List.pairwise_map.mp h'

theorem mem_keysOf_unitPu (api : Api) (month next_month : String) (c : Contract)
    (k : String) (h : k ∈ keysOf (unitPu api month next_month c)) :
    ∃ rest, k = compKey c.contract_id rest := by
  unfold unitPu at h
  obtain ⟨pid, -, rfl⟩ := mem_keysOf_puWrites api c.contract_id c.account_id
    c.company_name month _ k h
  exact ⟨pid, rfl⟩

theorem mem_keysOf_unitRg (api : Api) (month next_month : String) (c : Contract)
    (k : String) (h : k ∈ keysOf (unitRg api month next_month c)) :
    ∃ rest, k = compKey c.contract_id rest := by
  unfold unitRg at h
  exact mem_keysOf_rgWrites api c.contract_id c.account_id c.company_name month _ k h

/-- Under identifier hygiene, the three merged maps of `collect_all` are the
concatenations of the per-contract write lists, and their key sets are
globally duplicate-free. -/
theorem collect_all_flatten (api : Api) (month next_month : String)
    (order : List Contract) (hg : GoodRun api month next_month order) :
    (collect_all api month next_month order).product_usage =
      (order.map (unitPu api month next_month)).flatten ∧
    (collect_all api month next_month order).reporting_group_usage =
      (order.map (unitRg api month next_month)).flatten ∧
    (collect_all api month next_month order).products =
      (order.map (prodEntryOf (pcWorker api month next_month))).flatten ∧
    (keysOf ((order.map (unitPu api month next_month)).flatten)).Nodup ∧
    (keysOf ((order.map (unitRg api month next_month)).flatten)).Nodup := by
  obtain ⟨hcid, hunit⟩ := hg
  have hcidpw := goodRun_pairwise_cid order hcid
  have hpuN : ∀ c ∈ order, (keysOf (unitPu api month next_month c)).Nodup := by
    intro c hc
    obtain ⟨-, h1, -, -⟩ := hunit c hc
    exact keysOf_puWrites_nodup api c.contract_id c.account_id c.company_name month _ h1
  have hrgN : ∀ c ∈ order, (keysOf (unitRg api month next_month c)).Nodup := by
    intro c hc
    obtain ⟨-, h1, h2, h3⟩ := hunit c hc
    exact keysOf_rgWrites_nodup api c.contract_id c.account_id c.company_name month _ h1 h2 h3
  have hpuPW : order.Pairwise (fun c c' =>
      ∀ k ∈ keysOf (unitPu api month next_month c),
        k ∉ keysOf (unitPu api month next_month c')) := by
    refine hcidpw.imp_of_mem ?_
    intro c c' hc hc' hne k hk hk'
    obtain ⟨r1, rfl⟩ := mem_keysOf_unitPu api month next_month c k hk
    obtain ⟨r2, heq⟩ := mem_keysOf_unitPu api month next_month c' _ hk'
    obtain ⟨h1, -⟩ := compKey_usFree_inj (hunit c hc).1 (hunit c' hc').1 heq
    exact hne h1
  have hrgPW : order.Pairwise (fun c c' =>
      ∀ k ∈ keysOf (unitRg api month next_month c),
        k ∉ keysOf (unitRg api month next_month c')) := by
    refine hcidpw.imp_of_mem ?_
    intro c c' hc hc' hne k hk hk'
    obtain ⟨r1, rfl⟩ := mem_keysOf_unitRg api month next_month c k hk
    obtain ⟨r2, heq⟩ := mem_keysOf_unitRg api month next_month c' _ hk'
    obtain ⟨h1, -⟩ := compKey_usFree_inj (hunit c hc).1 (hunit c' hc').1 heq
    exact hne h1
  have hcongr : ∀ c ∈ order,
      puOf (pcWorker api month next_month) c = unitPu api month next_month c ∧
      rgOf (pcWorker api month next_month) c = unitRg api month next_month c := by
    intro c hc
    obtain ⟨-, h1, h2, h3⟩ := hunit c hc
    exact pcWorker_contribs api month next_month c h1 h2 h3
  unfold collect_all
  rw [collect_all_with_eq]
  refine ⟨?_, ?_, ?_, ?_, ?_⟩
  · show (order.foldl (fun m c =>
      alUpdateAll m (puOf (pcWorker api month next_month) c)) []) = _
    rw [foldl_congr_mem order _ (fun m c => alUpdateAll m (unitPu api month next_month c))
      [] (fun acc c hc => by rw [(hcongr c hc).1])]
    rw [foldl_alUpdateAll_flatten _ order [] hpuN hpuPW (by simp [keysOf])]
    simp
  · show (order.foldl (fun m c =>
      alUpdateAll m (rgOf (pcWorker api month next_month) c)) []) = _
    rw [foldl_congr_mem order _ (fun m c => alUpdateAll m (unitRg api month next_month c))
      [] (fun acc c hc => by rw [(hcongr c hc).2])]
    rw [foldl_alUpdateAll_flatten _ order [] hrgN hrgPW (by simp [keysOf])]
    simp
  · show (order.foldl (fun m c =>
      alUpdateAll m (prodEntryOf (pcWorker api month next_month) c)) []) = _
    rw [foldl_alUpdateAll_flatten _ order []
      (fun c _ => keysOf_prodEntryOf_nodup api month next_month c) ?_ (by simp [keysOf])]
    · simp
    · refine hcidpw.imp_of_mem ?_
      intro c c' hc hc' hne k hk hk'
      have h1 := mem_keysOf_prodEntryOf api month next_month c k hk
      have h2 := mem_keysOf_prodEntryOf api month next_month c' k hk'
      exact hne (h1 ▸ h2 ▸ rfl)
  · rw [keysOf_flatten, List.map_map, List.nodup_flatten]
    constructor
    · intro l hl
      obtain ⟨c, hc, rfl⟩ := List.mem_map.1 hl
      exact hpuN c hc
    · rw [List.pairwise_map]
      exact hpuPW.imp (fun h k hk hk' => h k hk hk')
  · rw [keysOf_flatten, List.map_map, List.nodup_flatten]
    constructor
    · intro l hl
      obtain ⟨c, hc, rfl⟩ := List.mem_map.1 hl
      exact hrgN c hc
    · rw [List.pairwise_map]
      exact hrgPW.imp (fun h k hk hk' => h k hk hk')

theorem collect_success_count (w : Contract → Except String ContractResult)
    (order : List Contract) :
    (collect_all_with w order).success_count = order.countP (okSucc w) := by
  rw [collect_all_with_eq]

theorem collect_failed (w : Contract → Except String ContractResult)
    (order : List Contract) :
    (collect_all_with w order).failed = order.filterMap (failEntryOf w) := by
  rw [collect_all_with_eq]

theorem failEntryOf_none_of_ok (w : Contract → Except String ContractResult)
    (c : Contract) (h : okSucc w c = true) : failEntryOf w c = none := by
  unfold okSucc at h
  unfold failEntryOf
  cases hw : w c with
  | error e =>
    rw [hw] at h
    cases h
  | ok r =>
    rw [hw] at h
    have h' : r.success = true := h
    simp [h']

theorem flatten_nil_of_all_nil {α : Type} :
    ∀ L : List (List α), (∀ l ∈ L, l = []) → L.flatten = [] := by
  intro L
  induction L with
  | nil => intro _; rfl
  | cons l t ih =>
    intro h
    rw [List.flatten_cons, h l (List.mem_cons_self l t),
      ih (fun x hx => h x (List.mem_cons_of_mem l hx))]
    rfl

theorem sum_map_const_two {β : Type} :
    ∀ (l : List β) (f : β → Nat), (∀ x ∈ l, f x = 2) →
      (l.map f).sum = 2 * l.length := by
  intro l
  induction l with
  | nil =>
    intro f _
    simp
  | cons b t ih =>
    intro f h
    rw [List.map_cons, List.sum_cons, h b (List.mem_cons_self b t),
      ih f (fun x hx => h x (List.mem_cons_of_mem b hx)), List.length_cons]
    ring

/-- C7 counterexample: the claim as stated fails on the code.  Contracts
`u` and `u_p` have distinct identifiers, yet both workers write the same
composite key `u_p_q` (underscores make key-building non-injective), and
merging loses one of the two records; likewise a single contract whose
listing repeats a product id writes the same key twice, silently
overwriting the first record (two listed products, one surviving record
holding the second product's data). -/
theorem composite_key_collision_counterexample :
    uX.contract_id ≠ uY.contract_id ∧
    keysOf (process_contract apiCollide "2025-09" "2025-10" uX).product_usage =
      ["u_p_q"] ∧
    keysOf (process_contract apiCollide "2025-09" "2025-10" uY).product_usage =
      ["u_p_q"] ∧
    (collect_all apiCollide "2025-09" "2025-10" [uX, uY]).product_usage.length = 1 ∧
    (listedProducts apiCollide "2025-09" "2025-10" uZ).length = 2 ∧
    (process_contract apiCollide "2025-09" "2025-10" uZ).product_usage =
      [("z_d", ⟨"z", "aZ", "Z", "d", "second", ⟨some "DONE", "z"⟩⟩)] := by
  refine ⟨by decide, by decide, by decide, by decide, by decide, by decide⟩

/-- C7 (amended): provided identifiers are underscore-free, contract ids
are pairwise distinct, each listing's truthy product ids are duplicate-free
and each product's truthy reporting-group ids are duplicate-free
(`GoodRun`), composite keys are globally unique across the run: the merged
maps are the disjoint union (plain concatenation) of the per-contract write
lists, no two workers produce the same key and nothing is overwritten. -/
theorem composite_keys_globally_unique (api : Api) (month next_month : String)
    (order : List Contract) (hg : GoodRun api month next_month order) :
    ((collect_all api month next_month order).product_usage =
      (order.map (unitPu api month next_month)).flatten ∧
     (keysOf ((order.map (unitPu api month next_month)).flatten)).Nodup) ∧
    ((collect_all api month next_month order).reporting_group_usage =
      (order.map (unitRg api month next_month)).flatten ∧
     (keysOf ((order.map (unitRg api month next_month)).flatten)).Nodup) := by
  obtain ⟨h1, h2, h3, h4, h5⟩ := collect_all_flatten api month next_month order hg
  exact ⟨⟨h1, h4⟩, ⟨h2, h5⟩⟩

/-- C7 amended witness: a concrete hygienic two-contract run. -/
theorem composite_keys_globally_unique_witness :
    (collect_all apiAllDone "2025-09" "2025-10" [cA, cB]).product_usage =
      ([cA, cB].map (unitPu apiAllDone "2025-09" "2025-10")).flatten ∧
    (keysOf (([cA, cB].map (unitPu apiAllDone "2025-09" "2025-10")).flatten)).Nodup :=
  (composite_keys_globally_unique apiAllDone "2025-09" "2025-10" [cA, cB]
    (by decide)).1

/-- C8 counterexample: the claim as stated fails on the code.  A run over
10 contracts with pairwise-distinct identifiers, each exposing exactly 2
products with no nesting and with every call succeeding, can produce a
merged map with only 19 keys: contracts `u` and `u_p` both write the
composite key `u_p_q`, so one record is silently lost even though
`success_count = 10` and the failure ledger is empty. -/
theorem end_to_end_key_loss_counterexample :
    unitsTenBad.length = 10 ∧
    (unitsTenBad.map (fun c => c.contract_id)).Nodup ∧
    (∀ c ∈ unitsTenBad,
      (listedProducts apiTenBad "2025-09" "2025-10" c).length = 2 ∧
      (unitPu apiTenBad "2025-09" "2025-10" c).length = 2 ∧
      unitRg apiTenBad "2025-09" "2025-10" c = [] ∧
      okSucc (pcWorker apiTenBad "2025-09" "2025-10") c = true) ∧
    (collect_all apiTenBad "2025-09" "2025-10" unitsTenBad).success_count = 10 ∧
    (collect_all apiTenBad "2025-09" "2025-10" unitsTenBad).failed = [] ∧
    (collect_all apiTenBad "2025-09" "2025-10" unitsTenBad).product_usage.length =
      19 := by
  refine ⟨by decide, by decide, by decide, by decide, by decide, by decide⟩

/-- C8 (amended): for a run over 10 contracts with hygienic identifiers
(`GoodRun`: pairwise-distinct underscore-free ids, duplicate-free product
ids), each contributing exactly 2 product-usage records, no reporting
groups, and every worker succeeding, the aggregate has
`success_count = 10`, the merged usage map has exactly 20 keys, the failure
ledger is empty, and the reporting-group map is empty. -/
theorem end_to_end_scenario_amended (api : Api) (month next_month : String)
    (order : List Contract)
    (hlen : order.length = 10)
    (hg : GoodRun api month next_month order)
    (hok : ∀ c ∈ order, okSucc (pcWorker api month next_month) c = true)
    (hpu2 : ∀ c ∈ order, (unitPu api month next_month c).length = 2)
    (hnorg : ∀ c ∈ order, unitRg api month next_month c = []) :
    (collect_all api month next_month order).success_count = 10 ∧
    (collect_all api month next_month order).product_usage.length = 20 ∧
    (collect_all api month next_month order).failed = [] ∧
    (collect_all api month next_month order).reporting_group_usage = [] := by
  obtain ⟨h1, h2, -, -, -⟩ := collect_all_flatten api month next_month order hg
  refine ⟨?_, ?_, ?_, ?_⟩
  · rw [collect_all, collect_success_count, List.countP_eq_length.2 hok, hlen]
  · rw [h1, List.length_flatten, List.map_map]
    have hs := sum_map_const_two order
      (fun c => (unitPu api month next_month c).length) hpu2
    rw [Function.comp_def] at *
    rw [hs, hlen]
  · rw [collect_all, collect_failed]
    exact List.filterMap_eq_nil.2
      (fun c hc => failEntryOf_none_of_ok _ c (hok c hc))
  · rw [h2]
    exact flatten_nil_of_all_nil _
      (fun l hl => by
        obtain ⟨c, hc, rfl⟩ := List.mem_map.1 hl
        exact hnorg c hc)

/-- C8 amended witness: a concrete hygienic 10-contract run. -/
theorem end_to_end_scenario_amended_witness :
    (collect_all apiTenGood "2025-09" "2025-10" unitsTenGood).success_count = 10 ∧
    (collect_all apiTenGood "2025-09" "2025-10" unitsTenGood).product_usage.length =
      20 ∧
    (collect_all apiTenGood "2025-09" "2025-10" unitsTenGood).failed = [] ∧
    (collect_all apiTenGood "2025-09" "2025-10" unitsTenGood).reporting_group_usage =
      [] :=
  end_to_end_scenario_amended apiTenGood "2025-09" "2025-10" unitsTenGood
    (by decide) (by decide) (by decide) (by decide) (by decide)

/-- C9 counterexample: the claim as stated fails on the code.  With the
same contract list and the same per-call responses, two completion orders
of `u` and `u_p` leave different contents in the merged map: both workers
write the key `u_p_q` with different records, `dict.update` lets the last
completion win, so the stored value depends on completion order. -/
theorem merge_order_dependence_counterexample :
    ([uX, uY] : List Contract).Perm [uY, uX] ∧
    alLookup (collect_all apiCollide "2025-09" "2025-10" [uX, uY]).product_usage
        "u_p_q" ≠
      alLookup (collect_all apiCollide "2025-09" "2025-10" [uY, uX]).product_usage
        "u_p_q" := by
  constructor
  · exact (List.Perm.swap uX uY []).symm
  · decide

/-- C9 (amended): under identifier hygiene (`GoodRun`), the aggregate is
completion-order independent: for any two completion orders of the same
contract list, the success counts are equal and the failure ledger and all
three merged maps are permutations of each other (identical contents as
multisets of key-value pairs). -/
theorem merge_order_independent_amended (api : Api) (month next_month : String)
    (order1 order2 : List Contract) (hperm : order1.Perm order2)
    (hg : GoodRun api month next_month order1) :
    (collect_all api month next_month order1).success_count =
      (collect_all api month next_month order2).success_count ∧
    (collect_all api month next_month order1).failed.Perm
      ((collect_all api month next_month order2).failed) ∧
    (collect_all api month next_month order1).product_usage.Perm
      ((collect_all api month next_month order2).product_usage) ∧
    (collect_all api month next_month order1).reporting_group_usage.Perm
      ((collect_all api month next_month order2).reporting_group_usage) ∧
    (collect_all api month next_month order1).products.Perm
      ((collect_all api month next_month order2).products) := by
  have hg2 : GoodRun api month next_month order2 := by
    obtain ⟨h1, h2⟩ := hg
    exact ⟨((hperm.map (fun c => c.contract_id)).nodup_iff).mp h1,
      fun c hc => h2 c (hperm.mem_iff.mpr hc)⟩
  obtain ⟨hp1, hr1, hq1, -, -⟩ := collect_all_flatten api month next_month order1 hg
  obtain ⟨hp2, hr2, hq2, -, -⟩ := collect_all_flatten api month next_month order2 hg2
  refine ⟨?_, ?_, ?_, ?_, ?_⟩
  · rw [collect_all, collect_all, collect_success_count, collect_success_count]
    exact hperm.countP_eq _
  · rw [collect_all, collect_all, collect_failed, collect_failed]
    exact hperm.filterMap _
  · rw [hp1, hp2]
    exact (hperm.map _).flatten
  · rw [hr1, hr2]
    exact (hperm.map _).flatten
  · rw [hq1, hq2]
    exact (hperm.map _).flatten

/-- C9 amended witness: two completion orders of a concrete hygienic run. -/
theorem merge_order_independent_amended_witness :
    (collect_all apiAllDone "2025-09" "2025-10" [cA, cB]).product_usage.Perm
      ((collect_all apiAllDone "2025-09" "2025-10" [cB, cA]).product_usage) :=
  (merge_order_independent_amended apiAllDone "2025-09" "2025-10" [cA, cB] [cB, cA]
    ((List.Perm.swap cA cB []).symm) (by decide)).2.2.1

end Spec2Proof
